import Mathlib

/-!
Verification of `gomiddleware/realip`.

A shallow embedding of `realip.go` and of the functions of the Go standard
library it calls (`strings.Index`, `strings.IndexRune`, `net.SplitHostPort`,
`net.ParseIP`, `net.IP.String`, `context.WithValue`, `Context.Value`,
`http.Header.Get`, `Request.WithContext`), followed by theorems about the
address resolver.

Conventions.

* A Go `string` is a sequence of bytes; a byte is a natural number (below 256
  in every real string).  The functions below only compare bytes with ASCII
  constants, so a number that is no ASCII code is just "some other byte".
* A Go `int` index that may be `-1` is an `Int`.
* A run-time panic (slice bounds out of range, failed type assertion) is a
  value of `Fault`; code that can panic returns `Except Fault _`.
* The library functions follow the current Go standard library.  `net.ParseIP`
  is `netip.ParseAddr` (`net/netip/netip.go`): an IPv4 octet with a leading
  zero and an IPv6 group of more than four digits are errors, and `ParseIP`
  refuses an address with a zone.  `net.SplitHostPort` is `net/ipsock.go`.
  `IP.String` is given in the formulation of `net/ip.go` (zero-run search, then
  print loop), which prints the same text as `netip.Addr.String`.  The
  functions report failure through their results (`nil`, a non-nil `error`),
  which is `none` here.
-/

namespace Realip

/-! ## Go strings -/

/-- Go `string`: a sequence of bytes. -/
abbrev GoString := List Nat

/-- The bytes of an ASCII literal. -/
def str (s : String) : GoString := s.toList.map Char.toNat

/-- Run-time panics of the Go program. -/
inductive Fault where
  | sliceBounds
  | typeAssertion
  deriving DecidableEq, Repr

/-- Results of code that can panic are compared by cases. -/
instance decEqExcept {ε α : Type} [DecidableEq ε] [DecidableEq α] : DecidableEq (Except ε α)
  | .ok a, .ok b => if h : a = b then isTrue (by rw [h]) else isFalse (by intro e; cases e; exact h rfl)
  | .error a, .error b =>
    if h : a = b then isTrue (by rw [h]) else isFalse (by intro e; cases e; exact h rfl)
  | .ok _, .error _ => isFalse (by intro e; cases e)
  | .error _, .ok _ => isFalse (by intro e; cases e)

/-- Loop of `strings.IndexByte`: `t` is `s[i:]`. -/
def IndexByte.go (c : Nat) : GoString → Nat → Int
  | [], _ => -1
  | b :: t, i => if b = c then (i : Int) else IndexByte.go c t (i + 1)

/-- Library `strings.IndexByte(s, c)` (`bytealg.IndexByteString`, `byteIndex`):
the index of the first `c` in `s`, or `-1`. -/
def IndexByte (s : GoString) (c : Nat) : Int := IndexByte.go c s 0

/-- Library `strings.IndexRune(s, r)` for an ASCII rune `r` (here `':'`): the
library dispatches `0 <= r < utf8.RuneSelf` to `IndexByte(s, byte(r))`. -/
def IndexRune (s : GoString) (r : Nat) : Int := IndexByte s r

/-- Library `strings.HasPrefix(s, p)`. -/
def HasPrefix : GoString → GoString → Bool
  | _, [] => true
  | [], _ :: _ => false
  | b :: s, c :: p => b = c && HasPrefix s p

/-- Scan of `strings.Index`: `t` is `s[i:]`. -/
def Index.go (sep : GoString) : GoString → Nat → Int
  | [], i => if HasPrefix [] sep then (i : Int) else -1
  | b :: t, i => if HasPrefix (b :: t) sep then (i : Int) else Index.go sep t (i + 1)

/-- Library `strings.Index(s, sep)`: the index of the first instance of `sep`
in `s`, or `-1` if `sep` is not present in `s`. -/
def Index (s sep : GoString) : Int := Index.go sep s 0

/-- Scan of `last`: `t` is `s[i:]`, `acc` the last index found so far. -/
def last.go (b : Nat) : GoString → Nat → Int → Int
  | [], _, acc => acc
  | c :: t, i, acc => last.go b t (i + 1) (if c = b then (i : Int) else acc)

/-- Library `last(s, b)` of package `net` (`bytealg.LastIndexByteString`): the
index of the last `b` in `s`, or `-1`. -/
def last (s : GoString) (b : Nat) : Int := last.go b s 0 (-1)

/-- Go slice expression `s[lo:hi]` on a string; panics unless
`0 <= lo <= hi <= len(s)`. -/
def slice (s : GoString) (lo hi : Int) : Except Fault GoString :=
  if 0 ≤ lo ∧ lo ≤ hi ∧ hi ≤ (s.length : Int) then
    .ok ((s.drop lo.toNat).take (hi.toNat - lo.toNat))
  else .error .sliceBounds

/-! ## `net.SplitHostPort` -/

/-- Tail of `net.SplitHostPort`: the bracket checks on `hostport[j:]` and
`hostport[k:]`, then `port = hostport[i+1:]`. -/
def SplitHostPort.finish (hostport host : GoString) (j k : Nat) (i : Int) :
    Option (GoString × GoString) :=
  if IndexByte (hostport.drop j) 91 ≥ 0 then none        -- unexpected '['
  else if IndexByte (hostport.drop k) 93 ≥ 0 then none   -- unexpected ']'
  else some (host, hostport.drop (i.toNat + 1))

/-- Library `net.SplitHostPort(hostport)`; `none` is a non-nil `err`
(missing port, too many colons, missing or unexpected bracket). -/
def SplitHostPort (hostport : GoString) : Option (GoString × GoString) :=
  -- The port starts after the last colon.
  let i := last hostport 58
  if i < 0 then none                                      -- missing port
  else if hostport.head? = some 91 then                   -- hostport[0] == '['
    -- Expect the first ']' just before the last ':'.
    let e := IndexByte hostport 93
    if e < 0 then none                                    -- missing ']'
    else if e + 1 = hostport.length then none             -- missing port
    else if e + 1 = i then
      -- host = hostport[1:end]; j, k = 1, end+1
      SplitHostPort.finish hostport ((hostport.drop 1).take (e.toNat - 1)) 1 (e.toNat + 1) i
    else none                                             -- too many colons / missing port
  else
    let host := hostport.take i.toNat                     -- hostport[:i]
    if IndexByte host 58 ≥ 0 then none                    -- too many colons
    else SplitHostPort.finish hostport host 0 0 i

/-! ## `net.ParseIP` -/

/-- Go `net.IP`: a slice of bytes (`nil` is `none` where a function returns it). -/
abbrev IP := List Nat

/-- Variable `v4InV6Prefix` of `net/ip.go`. -/
def v4InV6Prefix : List Nat := [0, 0, 0, 0, 0, 0, 0, 0, 0, 0, 0xff, 0xff]

/-- Library `net.IPv4(a, b, c, d)`: the 16-byte form of the IPv4 address. -/
def IPv4 (a b c d : Nat) : IP := v4InV6Prefix ++ [a, b, c, d]

/-- Loop of `parseIPv4Fields`, `for i := 0; i < len(s); i++`: `t` is `s[i:]`,
`prev` the byte `s[i-1]` (`none` at `i = 0`), `val` the value of the octet
read so far, `pos` the number of octets stored, `digLen` the number of digits
of the current octet, `fields` the four octets.  `none` is the return of an
error; otherwise `val`, `pos` and `fields` at the end of the string. -/
def parseIPv4Fields.loop :
    GoString → Option Nat → Nat → Nat → Nat → List Nat → Option (Nat × Nat × List Nat)
  | [], _, val, pos, _, fields => some (val, pos, fields)
  | c :: t, prev, val, pos, digLen, fields =>
    if 48 ≤ c ∧ c ≤ 57 then                               -- '0'..'9'
      if digLen = 1 ∧ val = 0 then none                   -- octet with leading zero
      else
        let val := val * 10 + (c - 48)
        if val > 255 then none                            -- value >255
        else parseIPv4Fields.loop t (some c) val pos (digLen + 1) fields
    else if c = 46 then                                   -- '.'
      -- .1.2.3, 1.2.3., 1..2.3: i == 0 || i == len(s)-1 || s[i-1] == '.'
      if prev = none ∨ t.length = 0 ∨ prev = some 46 then none
      else if pos = 3 then none                           -- 1.2.3.4.5
      else parseIPv4Fields.loop t (some c) 0 (pos + 1) 0 (fields.set pos (val % 256))
    else none                                             -- unexpected character

/-- Library `parseIPv4Fields` of `net/netip` on a whole string `s`: the four
octets of dotted-decimal text.  An octet has at most three digits, a value up
to 255 and no leading zero; `none` is a non-nil `error`. -/
def parseIPv4Fields (s : GoString) : Option (List Nat) :=
  match parseIPv4Fields.loop s none 0 0 0 [0, 0, 0, 0] with
  | none => none
  | some (val, pos, fields) =>
    if pos < 3 then none                                  -- address too short
    else some (fields.set 3 (val % 256))

/-- Library `parseIPv4(s)` of `net/netip`: an IPv4 address in dotted-decimal
form, given here in the 16-byte form (`Addr.As16` of `AddrFrom4(fields)`) that
`net.ParseIP` returns. -/
def parseIPv4 (s : GoString) : Option IP :=
  match parseIPv4Fields s with
  | none => none
  | some fields => some (v4InV6Prefix ++ fields)

/-- State of the main loop of `parseIPv6`: the rest of the string, the write
position `i`, the address bytes, the position of the ellipsis (`-1`: none). -/
structure V6State where
  s : GoString
  i : Nat
  ip : IP
  ellipsis : Int
  deriving DecidableEq, Repr

/-- Hex number loop of `parseIPv6`, `for ; off < len(s); off++`: `t` is
`s[off:]`, `acc` the value read so far (a `uint32`; it is at most `0xFFFF`
when a digit is added, so nothing overflows).  `none` is the return of an
error (a fifth digit, a value of `2^16` or more); otherwise `acc` and `off` at
the end of the digits. -/
def parseIPv6.hex : GoString → Nat → Nat → Option (Nat × Nat)
  | [], acc, off => some (acc, off)
  | c :: t, acc, off =>
    let next : Option Nat :=
      if 48 ≤ c ∧ c ≤ 57 then some ((acc <<< 4) + (c - 48))             -- '0'..'9'
      else if 97 ≤ c ∧ c ≤ 102 then some ((acc <<< 4) + (c - 97 + 10))  -- 'a'..'f'
      else if 65 ≤ c ∧ c ≤ 70 then some ((acc <<< 4) + (c - 65 + 10))   -- 'A'..'F'
      else none                                                         -- break
    match next with
    | none => some (acc, off)
    | some acc =>
      if off > 3 then none                                -- more than 4 digits in group
      else if acc > 0xFFFF then none                      -- overflow
      else parseIPv6.hex t acc (off + 1)

/-- Main loop of `parseIPv6`, `for i < 16`, with `fuel` iterations left
(every iteration advances `i` by at least 2).  `none` is the return of an
error; `some` is the state at loop exit (by `break` or by the loop
condition). -/
def parseIPv6.loop : Nat → V6State → Option V6State
  | 0, st => some st
  | fuel + 1, st =>
    if ¬ st.i < 16 then some st
    else
      -- Hex number.
      match parseIPv6.hex st.s 0 0 with
      | none => none
      | some (acc, off) =>
        if off = 0 then none                              -- no digits found
        -- If followed by dot, might be in trailing IPv4.
        else if off < st.s.length ∧ st.s.getD off 0 = 46 then
          if st.ellipsis < 0 ∧ st.i ≠ 12 then none        -- not the right place
          else if st.i + 4 > 16 then none                 -- not enough room
          else
            -- parseIPv4Fields(in, end-len(s), end, ip[i:i+4])
            match parseIPv4Fields st.s with
            | none => none
            | some f =>
              some { s := [], i := st.i + 4, ellipsis := st.ellipsis,
                     ip := (((st.ip.set st.i (f.getD 0 0)).set (st.i + 1) (f.getD 1 0)).set
                              (st.i + 2) (f.getD 2 0)).set (st.i + 3) (f.getD 3 0) }
        else
          -- Save this 16-bit chunk.
          let ip := (st.ip.set st.i ((acc >>> 8) % 256)).set (st.i + 1) (acc % 256)
          let i := st.i + 2
          -- Stop at end of string.
          let s := st.s.drop off
          if s.length = 0 then some { s := s, i := i, ip := ip, ellipsis := st.ellipsis }
          -- Otherwise must be followed by colon and more.
          else if s.head? ≠ some 58 ∨ s.length = 1 then none
          else
            let s := s.drop 1
            -- Look for ellipsis.
            if s.head? = some 58 then
              if st.ellipsis ≥ 0 then none                -- already have one
              else
                let s := s.drop 1
                if s.length = 0 then some { s := s, i := i, ip := ip, ellipsis := i }  -- can be at end
                else parseIPv6.loop fuel { s := s, i := i, ip := ip, ellipsis := i }
            else parseIPv6.loop fuel { s := s, i := i, ip := ip, ellipsis := st.ellipsis }

/-- Ellipsis expansion of `parseIPv6`: with `n = 16 - i`, the loop
`ip[j+n] = ip[j]` for `j = i-1 .. ellipsis` and `clear(ip[ellipsis : ellipsis+n])`
move the bytes `ip[ellipsis:i]` to the end and zero the gap. -/
def expandEllipsis (ip : IP) (i ellipsis : Nat) : IP :=
  ip.take ellipsis ++ List.replicate (16 - i) 0 ++ (ip.drop ellipsis).take (i - ellipsis)

/-- Part of `parseIPv6` after the leading ellipsis: the main loop on the rest
of the string `s`, then the checks and the expansion of the ellipsis. -/
def parseIPv6.run (s : GoString) (ellipsis : Int) : Option IP :=
  -- Loop, parsing hex numbers followed by colon.
  match parseIPv6.loop 8 { s := s, i := 0, ip := List.replicate 16 0, ellipsis := ellipsis } with
  | none => none
  | some st =>
    -- Must have used entire string.
    if st.s.length ≠ 0 then none
    -- If didn't parse enough, expand ellipsis.
    else if st.i < 16 then
      if st.ellipsis < 0 then none
      else some (expandEllipsis st.ip st.i st.ellipsis.toNat)
    -- Ellipsis must represent at least one 0 group.
    else if st.ellipsis ≥ 0 then none
    else some st.ip

/-- Body of `parseIPv6` on the text `s` before the zone: the leading
ellipsis, the main loop, the checks and the expansion of the ellipsis. -/
def parseIPv6.addr (s : GoString) : Option IP :=
  -- Might have leading ellipsis
  if s.length ≥ 2 ∧ s.getD 0 0 = 58 ∧ s.getD 1 0 = 58 then
    -- Might be only ellipsis
    if (s.drop 2).length = 0 then some (List.replicate 16 0)
    else parseIPv6.run (s.drop 2) 0
  else parseIPv6.run s (-1)

/-- Library `parseIPv6(in)` of `net/netip`: a literal IPv6 address (RFC 4291,
RFC 5952) with an optional zone after `'%'`.  Returns the 16 bytes of the
address and the zone (`""` if there is none). -/
def parseIPv6 (in_ : GoString) : Option (IP × GoString) :=
  -- Split off the zone right from the start.
  let i := IndexByte in_ 37
  if i ≠ -1 then
    let s := in_.take i.toNat                             -- in[:i]
    let zone := in_.drop (i.toNat + 1)                    -- in[i+1:]
    if zone.length = 0 then none                          -- zone must be a non-empty string
    else
      match parseIPv6.addr s with
      | none => none
      | some ip => some (ip, zone)
  else
    match parseIPv6.addr in_ with
    | none => none
    | some ip => some (ip, [])

/-- Dispatch of `netip.ParseAddr`: the first `'.'`, `':'` or `'%'` decides. -/
def ParseAddr.scan (s : GoString) : GoString → Option (IP × GoString)
  | [] => none                                            -- unable to parse IP
  | c :: t =>
    if c = 46 then
      match parseIPv4 s with
      | none => none
      | some ip => some (ip, [])
    else if c = 58 then parseIPv6 s
    else if c = 37 then none                              -- missing IPv6 address
    else ParseAddr.scan s t

/-- Library `netip.ParseAddr(s)`: the address in its 16-byte form (`Addr.As16`)
with its zone, or `none` for a non-nil `error`. -/
def ParseAddr (s : GoString) : Option (IP × GoString) := ParseAddr.scan s s

/-- Library `net.ParseIP(s)`: the address as a 16-byte `IP`, or `nil` (`none`)
if `s` is not a valid textual representation of an IP address.  The library
calls `netip.ParseAddr(s)` and returns `nil` on an error or a zone. -/
def ParseIP (s : GoString) : Option IP :=
  match ParseAddr s with
  | none => none
  | some (ip, zone) => if zone ≠ [] then none else some ip

/-! ## `net.IP.String` -/

/-- Library `isZeros(p)`. -/
def isZeros (p : IP) : Bool := p.all (fun b => b = 0)

/-- Library `IP.To4`: the 4-byte form of an IPv4 address, `nil` (`none`)
otherwise. -/
def IP.To4 (ip : IP) : Option IP :=
  if ip.length = 4 then some ip
  else if ip.length = 16 ∧ isZeros (ip.take 10) ∧ ip.getD 10 0 = 0xff ∧ ip.getD 11 0 = 0xff then
    some ((ip.drop 12).take 4)
  else none

/-- Library `uitoa`, the digit loop: the decimal digits of `val` in front of
`acc` (`fuel` bounds the number of digits). -/
def uitoa.go : Nat → Nat → GoString → GoString
  | 0, _, acc => acc
  | fuel + 1, val, acc =>
    if val ≥ 10 then uitoa.go fuel (val / 10) ((48 + (val - val / 10 * 10)) :: acc)
    else (48 + val) :: acc

/-- Library `uitoa(val)`: unsigned integer to decimal string (the buffer holds
20 digits). -/
def uitoa (val : Nat) : GoString :=
  if val = 0 then [48] else uitoa.go 20 val []

/-- Constant `hexDigit` of package `net`. -/
def hexDigit : GoString := str "0123456789abcdef"

/-- Loop of `appendHex`, `for j := 7; j >= 0; j--`: `k` is `j + 1`. -/
def appendHex.go (i : Nat) : Nat → GoString → GoString
  | 0, dst => dst
  | j + 1, dst =>
    let v := i >>> (j * 4)
    appendHex.go i j (if v > 0 then dst ++ [hexDigit.getD (v &&& 0xf) 0] else dst)

/-- Library `appendHex(dst, i)`: `i` in hexadecimal, leading zeros not
printed. -/
def appendHex (dst : GoString) (i : Nat) : GoString :=
  if i = 0 then dst ++ [48] else appendHex.go i 8 dst

/-- Library `hexString(b)`: two hexadecimal digits per byte. -/
def hexString (b : List Nat) : GoString :=
  b.flatMap (fun tn => [hexDigit.getD (tn >>> 4) 0, hexDigit.getD (tn &&& 0xf) 0])

/-- Inner loop of the zero-run search of `IP.String`:
`for j < IPv6len && p[j] == 0 && p[j+1] == 0 { j += 2 }`. -/
def zeroRunEnd (p : IP) : Nat → Nat → Nat
  | 0, j => j
  | fuel + 1, j =>
    if j < 16 ∧ p.getD j 0 = 0 ∧ p.getD (j + 1) 0 = 0 then zeroRunEnd p fuel (j + 2) else j

/-- Outer loop of the zero-run search of `IP.String`,
`for i := 0; i < IPv6len; i += 2`: the longest run of zero groups `[e0, e1)`. -/
def longestRun (p : IP) : Nat → Nat → Int → Int → Int × Int
  | 0, _, e0, e1 => (e0, e1)
  | fuel + 1, i, e0, e1 =>
    if i < 16 then
      let j := zeroRunEnd p 8 i
      if j > i ∧ (j : Int) - (i : Int) > e1 - e0 then
        longestRun p fuel (j + 2) i j                     -- e0 = i; e1 = j; i = j
      else longestRun p fuel (i + 2) e0 e1
    else (e0, e1)

/-- The 16-bit group `(uint32(p[i])<<8)|uint32(p[i+1])`. -/
def group (p : IP) (i : Nat) : Nat := (p.getD i 0 <<< 8) ||| p.getD (i + 1) 0

/-- Print loop of `IP.String`, `for i := 0; i < IPv6len; i += 2`: the groups
in hexadecimal with `::` in place of the run `[e0, e1)`. -/
def printLoop (p : IP) (e0 e1 : Int) : Nat → Nat → GoString → GoString
  | 0, _, b => b
  | fuel + 1, i, b =>
    if i < 16 then
      if (i : Int) = e0 then
        let b := b ++ [58, 58]
        let i := e1.toNat                                 -- i = e1
        if i ≥ 16 then b
        else printLoop p e0 e1 fuel (i + 2) (appendHex b (group p i))
      else
        let b := if i > 0 then b ++ [58] else b
        printLoop p e0 e1 fuel (i + 2) (appendHex b (group p i))
    else b

/-- Library `IP.String`: dotted decimal for an IPv4 address, otherwise the
IPv6 form with the longest run of zero groups (at least two) replaced by
`::`.  This is the algorithm of `net/ip.go`; `netip.Addr.String`, which the
current library calls for addresses of 4 and 16 bytes, prints the same text. -/
def IP.String (ip : IP) : GoString :=
  if ip.length = 0 then str "<nil>"
  else
    match IP.To4 ip with
    | some [a, b, c, d] =>
      uitoa a ++ [46] ++ uitoa b ++ [46] ++ uitoa c ++ [46] ++ uitoa d
    | _ =>
      if ip.length ≠ 16 then 63 :: hexString ip           -- "?" + hexString(ip)
      else
        -- Find longest run of zeros.
        let e := longestRun ip 8 0 (-1) (-1)
        -- The symbol "::" MUST NOT be used to shorten just one 16 bit 0 field.
        let e : Int × Int := if e.2 - e.1 ≤ 2 then (-1, -1) else e
        printLoop ip e.1 e.2 8 0 []

/-! ## `net/http` and `context` -/

/-- Library `validHeaderFieldByte` of `net/textproto`: the token bytes of
RFC 7230 (letters, digits and ``!#$%&'*+-.^_`|~``). -/
def validHeaderFieldByte (c : Nat) : Bool :=
  (48 ≤ c ∧ c ≤ 57) ∨ (65 ≤ c ∧ c ≤ 90) ∨ (97 ≤ c ∧ c ≤ 122) ∨
    c ∈ [33, 35, 36, 37, 38, 39, 42, 43, 45, 46, 94, 95, 96, 124, 126]

/-- Loop of `canonicalMIMEHeaderKey`: first letter upper case and upper case
after each dash, the other letters lower case. -/
def canonicalMIMEHeaderKey.go : GoString → Bool → GoString
  | [], _ => []
  | c :: t, upper =>
    let c1 :=
      if upper ∧ 97 ≤ c ∧ c ≤ 122 then c - 32
      else if ¬ upper ∧ 65 ≤ c ∧ c ≤ 90 then c + 32
      else c
    c1 :: canonicalMIMEHeaderKey.go t (c1 = 45)

/-- Library `http.CanonicalHeaderKey(s)` (`textproto.CanonicalMIMEHeaderKey`):
a key with a byte that is no token byte is returned unchanged. -/
def CanonicalHeaderKey (s : GoString) : GoString :=
  if s.all validHeaderFieldByte then canonicalMIMEHeaderKey.go s true else s

/-- Go `http.Header`, a `map[string][]string`: the values stored under each
key (no values: the key is absent). -/
abbrev Header := GoString → List GoString

/-- Library `Header.Get(key)`: the first value associated with the canonical
form of `key`, or `""` if there are no values. -/
def Header.Get (h : Header) (key : GoString) : GoString :=
  match h (CanonicalHeaderKey key) with
  | [] => []
  | v :: _ => v

/-- Context keys, compared by dynamic type and value as Go compares
`interface{}` values: keys of this package's unexported type `key`, and keys
of any other type. -/
inductive Key where
  | realip (n : Int)
  | foreign (tag : Nat)
  deriving DecidableEq, Repr

/-- Non-nil `interface{}` values by dynamic type: a `string`, or a value of
some other type. -/
inductive Any where
  | string (s : GoString)
  | other (tag : Nat)
  deriving DecidableEq, Repr

/-- Go `context.Context` as far as `Value` can tell: the empty context or a
`valueCtx` made by `context.WithValue` (`none` stores a nil value). -/
inductive Context where
  | background
  | withValue (parent : Context) (key : Key) (val : Option Any)
  deriving DecidableEq, Repr

/-- Library `Context.Value(key)`: the value associated with `key` in the
nearest enclosing `valueCtx`, or `nil` (`none`). -/
def Context.Value : Context → Key → Option Any
  | .background, _ => none
  | .withValue parent k v, key => if k = key then v else Context.Value parent key

/-- Type assertion `x.(string)`: panics unless `x` holds a `string`. -/
def assertString : Option Any → Except Fault GoString
  | some (.string s) => .ok s
  | _ => .error .typeAssertion

/-- Go `*http.Request`, the fields the package reads: the header, the
connection address and the context (`none`: the `ctx` field is nil). -/
structure Request where
  Header : Header
  RemoteAddr : GoString
  ctx : Option Context

/-- Library `Request.Context()`: the request's context, the background
context if none was set. -/
def Request.Context (r : Request) : Context := r.ctx.getD .background

/-- Library `Request.WithContext(ctx)`: a shallow copy of `r` with its context
changed to `ctx`. -/
def Request.WithContext (r : Request) (ctx : Realip.Context) : Request := { r with ctx := some ctx }

/-! ## `realip.go` -/

/-- Constant `realIpKey` of `realip.go`: `const realIpKey key = 27`. -/
def realIpKey : Key := .realip 27

/-- Variable `xForwardedFor` of `realip.go`. -/
def xForwardedFor : GoString := CanonicalHeaderKey (str "X-Forwarded-For")

/-- Variable `xRealIP` of `realip.go`. -/
def xRealIP : GoString := CanonicalHeaderKey (str "X-Real-IP")

/-- Function `checkIP` of `realip.go`: checks that the IP address looks okay
and returns it, else returns the empty string. -/
def checkIP (rawIP : GoString) : GoString :=
  let ip : Option GoString :=
    if IndexRune rawIP 58 ≠ -1 then
      match SplitHostPort rawIP with
      | none => none                                      -- err != nil: return ""
      | some (host, _) => some host
    else some rawIP
  match ip with
  | none => []
  | some ip =>
    -- parse the ip to make sure it is okay
    match ParseIP ip with
    | none => []                                          -- userIP == nil
    | some userIP => IP.String userIP

/-- Function `realIp` of `realip.go`: the address from `X-Forwarded-For`, else
from `X-Real-IP`, else from `RemoteAddr`. -/
def realIp (r : Request) : Except Fault GoString :=
  -- firstly, try the "X-Forwarded-For"
  let xff := r.Header.Get xForwardedFor
  if xff ≠ [] then
    let i := Index xff (str ", ")
    if i = -1 then .ok (checkIP xff)                      -- the complete string
    else (slice xff 0 i).map checkIP                      -- checkIP(xff[:i])
  else
    -- check "X-Real-IP" instead
    let xrip := r.Header.Get xRealIP
    if xrip ≠ [] then .ok (checkIP xrip)
    else
      -- finally, try the request's RemoteAddr from the connection
      .ok (checkIP r.RemoteAddr)

/-- Go `http.Handler`: what `ServeHTTP(w, r)` does, as a function of the
response writer and the request; `ρ` is the type of its effect. -/
abbrev Handler (ω ρ : Type) := ω → Request → Except Fault ρ

/-- Function `RealIp` of `realip.go`: the middleware stores `realIp(r)` under
`realIpKey` in the request's context and calls `next` with the new request. -/
def RealIp {ω ρ : Type} (next : Handler ω ρ) : Handler ω ρ := fun w r =>
  realIp r >>= fun ip =>
    let ctx := Context.withValue r.Context realIpKey (some (.string ip))
    next w (r.WithContext ctx)

/-- Function `RealIpFromRequest` of `realip.go`. -/
def RealIpFromRequest (r : Request) : Except Fault GoString :=
  assertString (r.Context.Value realIpKey)

/-- Function `RealIpFromContext` of `realip.go`. -/
def RealIpFromContext (ctx : Context) : Except Fault GoString :=
  assertString (ctx.Value realIpKey)

/-! ## Specification-level definitions and example requests -/

/-- The first element of a forwarded-for list, in the words of the
specification: the text before the first comma-plus-space separator, or the
whole value if no separator is present. -/
def firstElement : GoString → GoString
  | [] => []
  | c :: t => if HasPrefix (c :: t) [44, 32] then [] else c :: firstElement t

/-- A decimal digit or a dot. -/
def isDigitOrDot (x : Nat) : Prop := (48 ≤ x ∧ x ≤ 57) ∨ x = 46

/-- A request with the given values under `X-Forwarded-For` and `X-Real-Ip`,
no other header, the given connection address and no context. -/
def requestOf (xff xrip : List GoString) (remoteAddr : GoString) : Request :=
  { Header := fun k =>
      if k = str "X-Forwarded-For" then xff else if k = str "X-Real-Ip" then xrip else []
    RemoteAddr := remoteAddr
    ctx := none }

/-- A value has been stored under `key` by some `context.WithValue` of the
chain. -/
def Context.stored : Context → Key → Bool
  | .background, _ => false
  | .withValue parent k _, key => k = key || Context.stored parent key

/-! ## Definitions used in the proofs -/

/-- A well-formed 16-byte address: what `ParseIP` returns. -/
def IP.wf (ip : IP) : Prop := ip.length = 16 ∧ ∀ b ∈ ip, b < 256

/-- Invariant of the main loop of `parseIPv6`. -/
def V6State.inv (st : V6State) : Prop :=
  IP.wf st.ip ∧ st.i ≤ 16 ∧ st.i % 2 = 0 ∧ -1 ≤ st.ellipsis ∧ st.ellipsis ≤ st.i

/-- The hexadecimal text of a group: `appendHex` on an empty buffer. -/
def hex (g : Nat) : GoString := appendHex [] g

/-- The byte after a group in the text of an address: the end of the string or a colon. -/
def groupEnd (t : GoString) : Prop := t = [] ∨ ∃ u, t = 58 :: u

/-- The two bytes `byte(n >> 8)`, `byte(n)` stored for a group. -/
def store (ip : IP) (i g : Nat) : IP := (ip.set i ((g >>> 8) % 256)).set (i + 1) (g % 256)

/-- What the zero-run search keeps: no run, or an even-aligned run of zero
bytes inside the address. -/
def goodRun (p : IP) (e0 e1 : Int) : Prop :=
  (e0 = -1 ∧ e1 = -1) ∨
  ∃ a b : Nat, e0 = (a : Int) ∧ e1 = (b : Int) ∧ a % 2 = 0 ∧ b % 2 = 0 ∧ a < b ∧ b ≤ 16 ∧
    ∀ k, a ≤ k → k < b → p.getD k 0 = 0

/-- A hexadecimal digit, as the hex number loop of `parseIPv6` reads it. -/
def isHexDigit (x : Nat) : Prop := (48 ≤ x ∧ x ≤ 57) ∨ (97 ≤ x ∧ x ≤ 102) ∨ (65 ≤ x ∧ x ≤ 70)

/-- A byte of the text of an address: a hexadecimal digit, a colon or a dot. -/
def isAddrByte (x : Nat) : Prop := isHexDigit x ∨ x = 58 ∨ x = 46

/-! ## The library model on sample inputs

Inputs and expected results in the style of the tables of the library's own
tests (`ip_test.go`, `ipsock_test.go`), evaluated on the model. -/

/-- The model of `ParseIP` on sample inputs: dotted decimal, IPv6 with and
without `::`, embedded IPv4, and rejected strings, among them an octet with a
leading zero, a group of more than four digits and an address with a zone. -/
theorem ParseIP_examples :
    ParseIP (str "127.0.1.2") = some (IPv4 127 0 1 2) ∧
    ParseIP (str "192.0.2.0") = some (IPv4 192 0 2 0) ∧
    ParseIP (str "::ffff:127.1.2.3") = some (IPv4 127 1 2 3) ∧
    ParseIP (str "::ffff:7f01:0203") = some (IPv4 127 1 2 3) ∧
    ParseIP (str "0:0:0:0:0000:ffff:127.1.2.3") = some (IPv4 127 1 2 3) ∧
    ParseIP (str "0:0:0:0::ffff:127.1.2.3") = some (IPv4 127 1 2 3) ∧
    ParseIP (str "2001:4860:0:2001::68")
      = some [0x20, 0x01, 0x48, 0x60, 0, 0, 0x20, 0x01, 0, 0, 0, 0, 0, 0, 0x00, 0x68] ∧
    ParseIP (str "2001:4860:0000:2001:0000:0000:0000:0068")
      = some [0x20, 0x01, 0x48, 0x60, 0, 0, 0x20, 0x01, 0, 0, 0, 0, 0, 0, 0x00, 0x68] ∧
    ParseIP (str "2001:DB8::A") = some [0x20, 0x01, 0x0d, 0xb8, 0, 0, 0, 0, 0, 0, 0, 0, 0, 0, 0, 0x0a] ∧
    ParseIP (str "::") = some (List.replicate 16 0) ∧
    ParseIP (str "127.001.002.003") = none ∧
    ParseIP (str "010.0.0.1") = none ∧
    ParseIP (str "10.0.0.00") = none ∧
    ParseIP (str "::ffff:127.001.002.003") = none ∧
    ParseIP (str "::00001") = none ∧
    ParseIP (str "0:0:0:0:000000:ffff:127.1.2.3") = none ∧
    ParseIP (str "1:2:3:4:5:6:7:10000") = none ∧
    ParseIP (str "-0.0.0.0") = none ∧
    ParseIP (str "0.-1.0.0") = none ∧
    ParseIP (str "127.0.0.256") = none ∧
    ParseIP (str "1.2.3") = none ∧
    ParseIP (str "1.2.3.4.5") = none ∧
    ParseIP (str "1..2.3") = none ∧
    ParseIP (str ".1.2.3") = none ∧
    ParseIP (str "1.2.3.") = none ∧
    ParseIP (str "abc") = none ∧
    ParseIP (str "123:") = none ∧
    ParseIP (str "fe80::1%lo0") = none ∧
    ParseIP (str "fe80::1%") = none ∧
    ParseIP (str "%eth0") = none ∧
    ParseIP (str "") = none ∧
    ParseIP (str "a1:a2:a3:a4::b1:b2:b3:b4") = none ∧
    ParseIP (str "1::2::3") = none := by
  repeat' constructor

/-- The model of `IP.String` on sample addresses: the longest run of zero
groups becomes `::`, the first one on a tie, and a single zero group stays. -/
theorem String_examples :
    IP.String [192, 0, 2, 1] = str "192.0.2.1" ∧
    IP.String (IPv4 192 0 2 1) = str "192.0.2.1" ∧
    IP.String [0x20, 0x1, 0xd, 0xb8, 0, 0, 0, 0, 0, 0, 0x1, 0x23, 0, 0x12, 0, 0x1]
      = str "2001:db8::123:12:1" ∧
    IP.String [0x20, 0x1, 0xd, 0xb8, 0, 0, 0, 0, 0, 0, 0, 0, 0, 0, 0, 0x1] = str "2001:db8::1" ∧
    IP.String [0x20, 0x1, 0xd, 0xb8, 0, 0, 0, 0x1, 0, 0, 0, 0x1, 0, 0, 0, 0x1]
      = str "2001:db8:0:1:0:1:0:1" ∧
    IP.String [0x20, 0x1, 0xd, 0xb8, 0, 0x1, 0, 0, 0, 0x1, 0, 0, 0, 0x1, 0, 0]
      = str "2001:db8:1:0:1:0:1:0" ∧
    IP.String [0x20, 0x1, 0, 0, 0, 0, 0, 0, 0, 0x1, 0, 0, 0, 0, 0, 0x1] = str "2001::1:0:0:1" ∧
    IP.String [0x20, 0x1, 0xd, 0xb8, 0, 0, 0, 0, 0, 0x1, 0, 0, 0, 0, 0, 0]
      = str "2001:db8:0:0:1::" ∧
    IP.String [0x20, 0x1, 0xd, 0xb8, 0, 0, 0, 0, 0, 0x1, 0, 0, 0, 0, 0, 0x1]
      = str "2001:db8::1:0:0:1" ∧
    IP.String (List.replicate 16 0) = str "::" ∧
    IP.String [] = str "<nil>" := by
  decide

/-- The model of `SplitHostPort` on sample inputs: accepted forms and the
rejected ones (missing port, too many colons, bracket errors). -/
theorem SplitHostPort_examples :
    SplitHostPort (str "127.0.0.1:80") = some (str "127.0.0.1", str "80") ∧
    SplitHostPort (str "[::1]:80") = some (str "::1", str "80") ∧
    SplitHostPort (str "[::1%lo0]:80") = some (str "::1%lo0", str "80") ∧
    SplitHostPort (str "localhost:80") = some (str "localhost", str "80") ∧
    SplitHostPort (str ":80") = some ([], str "80") ∧
    SplitHostPort (str "[::1]:") = some (str "::1", []) ∧
    SplitHostPort (str "golang.org") = none ∧
    SplitHostPort (str "127.0.0.1") = none ∧
    SplitHostPort (str "[::1]") = none ∧
    SplitHostPort (str "::1") = none ∧
    SplitHostPort (str "fe80::1%lo0:80") = none ∧
    SplitHostPort (str "[foo:bar]") = none ∧
    SplitHostPort (str "[foo:bar]baz") = none ∧
    SplitHostPort (str "[foo]bar:baz") = none ∧
    SplitHostPort (str "[foo]:[bar]:baz") = none ∧
    SplitHostPort (str "[foo]:[bar]baz") = none ∧
    SplitHostPort (str "foo[bar]:baz") = none ∧
    SplitHostPort (str "foo]bar:baz") = none := by
  repeat' constructor

/-- The validation and the resolver on sample inputs: an IPv4 octet with a
leading zero and an IPv6 group of more than four digits are rejected, whichever
source the candidate comes from. -/
theorem checkIP_examples :
    checkIP (str "10.0.0.1") = str "10.0.0.1" ∧
    checkIP (str "10.0.0.1:80") = str "10.0.0.1" ∧
    checkIP (str "[10.0.0.1]:80") = str "10.0.0.1" ∧
    checkIP (str "010.0.0.1") = [] ∧
    checkIP (str "010.0.0.1:80") = [] ∧
    checkIP (str "[010.0.0.1]:80") = [] ∧
    checkIP (str "127.001.002.003") = [] ∧
    checkIP (str "[::1]:80") = str "::1" ∧
    checkIP (str "[::0001]:80") = str "::1" ∧
    checkIP (str "[::00001]:80") = [] ∧
    checkIP (str "[2001:DB8::A]:80") = str "2001:db8::a" ∧
    checkIP (str "[fe80::1%lo0]:80") = [] ∧
    realIp (requestOf [str "10.0.0.1, 70.41.3.18"] [] (str "192.0.2.1:4321"))
      = .ok (str "10.0.0.1") ∧
    realIp (requestOf [str "010.0.0.1, 70.41.3.18"] [] (str "192.0.2.1:4321")) = .ok [] ∧
    realIp (requestOf [] [str "010.0.0.1"] (str "192.0.2.1:4321")) = .ok [] ∧
    realIp (requestOf [] [] (str "010.0.0.1:4321")) = .ok [] := by
  repeat' constructor

/-! ## Strings and the forwarded-for list -/

/-- The scan of `strings.Index` for `", "` finds the end of the first element,
or nothing when the first element is the whole string. -/
theorem Index_go_sep (s : GoString) (i : Nat) :
    (Index.go [44, 32] s i = -1 ∧ firstElement s = s) ∨
    (∃ n : Nat, Index.go [44, 32] s i = ((i + n : Nat) : Int) ∧ n ≤ s.length ∧
      s.take n = firstElement s) := by
  induction s generalizing i with
  | nil => left; simp [Index.go, HasPrefix, firstElement]
  | cons c t ih =>
    by_cases h : HasPrefix (c :: t) [44, 32] = true
    · right
      refine ⟨0, ?_, by simp, ?_⟩
      · simp [Index.go, h]
      · simp [firstElement, h]
    · rcases ih (i + 1) with ⟨h1, h2⟩ | ⟨n, h1, h2, h3⟩
      · left
        simp [Index.go, h, h1, firstElement, h2]
      · right
        refine ⟨n + 1, ?_, by simpa using h2, ?_⟩
        · simp only [Index.go, h, h1]
          simp; omega
        · simp [firstElement, h, h3]

/-- The slice `xff[:i]` at the index of the first `", "` is in bounds and is
the first element. -/
theorem slice_Index (s : GoString) :
    (Index s [44, 32] = -1 ∧ firstElement s = s) ∨
    (Index s [44, 32] ≠ -1 ∧ slice s 0 (Index s [44, 32]) = .ok (firstElement s)) := by
  rcases Index_go_sep s 0 with ⟨h1, h2⟩ | ⟨n, h1, h2, h3⟩
  · left; exact ⟨h1, h2⟩
  · right
    unfold Index
    rw [h1]
    refine ⟨by omega, ?_⟩
    simp [slice, h2, h3]

/-- The separator `", "` as bytes. -/
theorem str_sep : str ", " = [44, 32] := by decide

/-- The resolver never panics: it returns the validation of the first
forwarded-for element, else of the real-IP value, else of the connection
address. -/
theorem realIp_eq (r : Request) :
    realIp r = .ok
      (if r.Header.Get xForwardedFor ≠ [] then checkIP (firstElement (r.Header.Get xForwardedFor))
       else if r.Header.Get xRealIP ≠ [] then checkIP (r.Header.Get xRealIP)
       else checkIP r.RemoteAddr) := by
  unfold realIp
  simp only [str_sep]
  by_cases hx : r.Header.Get xForwardedFor = []
  · simp only [hx, ne_eq, not_true_eq_false, if_false]
    by_cases hr : r.Header.Get xRealIP = [] <;> simp [hr]
  · simp only [ne_eq, hx, not_false_eq_true, if_true]
    rcases slice_Index (r.Header.Get xForwardedFor) with ⟨h1, h2⟩ | ⟨h1, h2⟩
    · simp [h1, h2]
    · simp [h1, h2, Except.map]

/-! ## Dotted-decimal addresses -/

/-- The loop of `parseIPv4Fields` accepts decimal digits and dots only, and
every octet it stores follows a dot. -/
theorem parseIPv4Fields_loop_chars (t : GoString) (prev : Option Nat) (val pos digLen : Nat)
    (fields : List Nat) (v p : Nat) (f : List Nat)
    (h : parseIPv4Fields.loop t prev val pos digLen fields = some (v, p, f)) :
    (∀ x ∈ t, isDigitOrDot x) ∧ (pos < p → 46 ∈ t) := by
  induction t generalizing prev val pos digLen fields with
  | nil =>
    simp only [parseIPv4Fields.loop, Option.some.injEq, Prod.mk.injEq] at h
    exact ⟨by simp, by omega⟩
  | cons c u ih =>
    simp only [parseIPv4Fields.loop] at h
    split at h
    · rename_i hc
      split at h
      · simp at h
      · split at h
        · simp at h
        · obtain ⟨h1, h2⟩ := ih _ _ _ _ _ h
          refine ⟨?_, fun hp => List.mem_cons_of_mem _ (h2 hp)⟩
          intro x hx
          rcases List.mem_cons.1 hx with rfl | hx
          · exact Or.inl hc
          · exact h1 x hx
    · split at h
      · rename_i hc
        split at h
        · simp at h
        · split at h
          · simp at h
          · obtain ⟨h1, -⟩ := ih _ _ _ _ _ h
            refine ⟨?_, fun _ => by simp [hc]⟩
            intro x hx
            rcases List.mem_cons.1 hx with rfl | hx
            · exact Or.inr hc
            · exact h1 x hx
      · simp at h

/-- A string that `parseIPv4Fields` accepts is made of decimal digits and dots
and holds a dot. -/
theorem parseIPv4Fields_chars (a : GoString) (f : List Nat) (h : parseIPv4Fields a = some f) :
    (∀ x ∈ a, isDigitOrDot x) ∧ 46 ∈ a := by
  unfold parseIPv4Fields at h
  split at h
  · simp at h
  · rename_i v p f1 heq
    split at h
    · simp at h
    · obtain ⟨h1, h2⟩ := parseIPv4Fields_loop_chars _ _ _ _ _ _ _ _ _ heq
      exact ⟨h1, h2 (by omega)⟩

/-- A string that `parseIPv4` accepts is made of decimal digits and dots and
holds a dot. -/
theorem parseIPv4_chars (a : GoString) (ip : IP) (h : parseIPv4 a = some ip) :
    (∀ x ∈ a, isDigitOrDot x) ∧ 46 ∈ a := by
  unfold parseIPv4 at h
  split at h
  · simp at h
  · rename_i f heq
    exact parseIPv4Fields_chars a f heq

/-- The scan of `IndexByte` returns `-1` when the byte does not occur. -/
theorem IndexByte_go_absent (c : Nat) (s : GoString) (i : Nat) (h : c ∉ s) :
    IndexByte.go c s i = -1 := by
  induction s generalizing i with
  | nil => rfl
  | cons b t ih =>
    simp only [List.mem_cons, not_or] at h
    simp only [IndexByte.go]
    rw [if_neg (fun e => h.1 e.symm)]
    exact ih _ h.2

/-- The scan of `IndexByte` returns an index when the byte occurs. -/
theorem IndexByte_go_present (c : Nat) (s : GoString) (i : Nat) (h : c ∈ s) :
    0 ≤ IndexByte.go c s i := by
  induction s generalizing i with
  | nil => simp at h
  | cons b t ih =>
    simp only [IndexByte.go]
    by_cases hb : b = c
    · simp [hb]
    · rw [if_neg hb]
      rcases List.mem_cons.1 h with h | h
      · exact absurd h.symm hb
      · exact ih _ h

/-- On a string without the byte `IndexByte` returns `-1`. -/
theorem IndexByte_absent (c : Nat) (s : GoString) (h : c ∉ s) : IndexByte s c = -1 :=
  IndexByte_go_absent c s 0 h

/-- On a string with the byte `IndexByte` returns an index. -/
theorem IndexByte_present (c : Nat) (s : GoString) (h : c ∈ s) : 0 ≤ IndexByte s c :=
  IndexByte_go_present c s 0 h

/-- The scan of `last` keeps its accumulator when the byte does not occur. -/
theorem last_go_absent (b : Nat) (s : GoString) (i : Nat) (acc : Int) (h : b ∉ s) :
    last.go b s i acc = acc := by
  induction s generalizing i acc with
  | nil => rfl
  | cons c t ih =>
    simp only [List.mem_cons, not_or] at h
    simp only [last.go]
    rw [if_neg (fun e => h.1 e.symm)]
    exact ih _ _ h.2

/-- The scan of `last` returns the position of the last occurrence. -/
theorem last_go_split (b : Nat) (pre post : GoString) (i : Nat) (acc : Int) (h : b ∉ post) :
    last.go b (pre ++ b :: post) i acc = ((i + pre.length : Nat) : Int) := by
  induction pre generalizing i acc with
  | nil => simp [last.go, last_go_absent b post _ _ h]
  | cons c t ih =>
    rw [List.cons_append]
    simp only [last.go, List.length_cons]
    rw [ih]
    congr 1; omega

/-- The index `last` returns on `pre ++ b :: post`, with no `b` in `post`, is
the length of `pre`. -/
theorem last_split (b : Nat) (pre post : GoString) (h : b ∉ post) :
    last (pre ++ b :: post) b = (pre.length : Int) := by
  unfold last
  rw [last_go_split b pre post 0 (-1) h]
  simp

/-- The host and port of `host:port`, for a host without colon or bracket and
a port without colon or bracket. -/
theorem SplitHostPort_plain (a port : GoString)
    (ha : 58 ∉ a ∧ 91 ∉ a ∧ 93 ∉ a) (hp : 58 ∉ port ∧ 91 ∉ port ∧ 93 ∉ port) :
    SplitHostPort (a ++ 58 :: port) = some (a, port) := by
  have hl := last_split 58 a port hp.1
  have h0 : (a ++ 58 :: port).head? ≠ some 91 := by
    cases a with
    | nil => simp
    | cons x t =>
      simp only [List.cons_append, List.head?_cons, ne_eq, Option.some.injEq]
      intro hx
      exact ha.2.1 (by simp [hx])
  have h91 : 91 ∉ a ++ 58 :: port := by simp [ha.2.1, hp.2.1]
  have h93 : 93 ∉ a ++ 58 :: port := by simp [ha.2.2, hp.2.2]
  unfold SplitHostPort
  simp only [hl, h0, if_false]
  have h1 : ¬ ((a.length : Int) < 0) := by omega
  simp only [h1, if_false, Int.toNat_ofNat, List.take_left', IndexByte_absent 58 a ha.1]
  simp [SplitHostPort.finish, IndexByte_absent 91 _ h91, IndexByte_absent 93 _ h93]

/-- The dispatch of `ParseAddr` chooses `parseIPv4` when a dot comes before any
colon or percent sign. -/
theorem ParseAddr_scan_dot (s t : GoString) (h1 : 58 ∉ t) (h3 : 37 ∉ t) (h2 : 46 ∈ t) :
    ParseAddr.scan s t =
      (match parseIPv4 s with
       | none => none
       | some ip => some (ip, [])) := by
  induction t with
  | nil => simp at h2
  | cons c u ih =>
    simp only [List.mem_cons, not_or] at h1 h3
    simp only [ParseAddr.scan]
    by_cases hc : c = 46
    · simp [hc]
    · rw [if_neg hc, if_neg (fun e => h1.1 e.symm), if_neg (fun e => h3.1 e.symm)]
      rcases List.mem_cons.1 h2 with h | h
      · exact absurd h.symm hc
      · exact ih h1.2 h3.2 h

/-- A byte that is no digit and no dot does not occur in dotted-decimal text.
-/
theorem isDigitOrDot_not (a : GoString) (h : ∀ x ∈ a, isDigitOrDot x) (c : Nat)
    (hc : ¬ isDigitOrDot c) : c ∉ a := fun hm => hc (h c hm)

/-- What `parseIPv4` accepts, `ParseIP` accepts, with the same address. -/
theorem ParseIP_ipv4 (a : GoString) (ip : IP) (h : parseIPv4 a = some ip) :
    ParseIP a = some ip := by
  obtain ⟨h1, h2⟩ := parseIPv4_chars a ip h
  unfold ParseIP ParseAddr
  rw [ParseAddr_scan_dot a a (isDigitOrDot_not a h1 58 (by unfold isDigitOrDot; omega))
    (isDigitOrDot_not a h1 37 (by unfold isDigitOrDot; omega)) h2, h]
  simp

/-- Validation of a dotted-decimal IPv4 address: its canonical string. -/
theorem checkIP_ipv4 (a : GoString) (ip : IP) (h : parseIPv4 a = some ip) :
    checkIP a = IP.String ip := by
  obtain ⟨h1, h2⟩ := parseIPv4_chars a ip h
  have hc : IndexRune a 58 = -1 :=
    IndexByte_absent 58 a (isDigitOrDot_not a h1 58 (by unfold isDigitOrDot; omega))
  unfold checkIP
  simp [hc, ParseIP_ipv4 a ip h]

/-- Validation of `a:port` for a dotted-decimal IPv4 address `a` and a port
without colon or bracket: the canonical string of `a`. -/
theorem checkIP_ipv4_port (a port : GoString) (ip : IP) (h : parseIPv4 a = some ip)
    (hp : 58 ∉ port ∧ 91 ∉ port ∧ 93 ∉ port) :
    checkIP (a ++ 58 :: port) = IP.String ip := by
  obtain ⟨h1, h2⟩ := parseIPv4_chars a ip h
  have hn : ∀ c, ¬ isDigitOrDot c → c ∉ a := isDigitOrDot_not a h1
  have hs := SplitHostPort_plain a port
    ⟨hn 58 (by unfold isDigitOrDot; omega), hn 91 (by unfold isDigitOrDot; omega),
      hn 93 (by unfold isDigitOrDot; omega)⟩ hp
  have hc : IndexRune (a ++ 58 :: port) 58 ≠ -1 := by
    have := IndexByte_present 58 (a ++ 58 :: port) (by simp)
    unfold IndexRune
    omega
  unfold checkIP
  simp [hc, hs, ParseIP_ipv4 a ip h]

/-- The empty string is no IPv4 address. -/
theorem parseIPv4_ne_nil (a : GoString) (ip : IP) (h : parseIPv4 a = some ip) : a ≠ [] := by
  intro e
  have := (parseIPv4_chars a ip h).2
  simp [e] at this

/-- The first element of `a ++ ", " ++ rest` is `a` when `a` holds no comma.
-/
theorem firstElement_append_sep (a rest : GoString) (h : 44 ∉ a) :
    firstElement (a ++ 44 :: 32 :: rest) = a := by
  induction a with
  | nil => simp [firstElement, HasPrefix]
  | cons c t ih =>
    simp only [List.mem_cons, not_or] at h
    have hc : c ≠ 44 := fun e => h.1 e.symm
    simp [firstElement, HasPrefix, hc, ih h.2]

/-! ## The loops stop before their fuel runs out

Each fuelled loop of the model advances its index by at least 2 in every
iteration and stops at 16, so the fuel 8 given to it is never the reason it
stops: one more unit of fuel changes nothing. -/

/-- The main loop of `parseIPv6` does not depend on fuel beyond `(16 - i) / 2`. -/
theorem parseIPv6_loop_fuel (f : Nat) (st : V6State) (h : 16 ≤ st.i + 2 * f) :
    parseIPv6.loop (f + 1) st = parseIPv6.loop f st := by
  induction f generalizing st with
  | zero =>
    have : ¬ st.i < 16 := by omega
    simp [parseIPv6.loop, this]
  | succ f ih =>
    have k : ∀ (s : GoString) (ip : IP) (e : Int),
        parseIPv6.loop (f + 1) { s := s, i := st.i + 2, ip := ip, ellipsis := e }
          = parseIPv6.loop f { s := s, i := st.i + 2, ip := ip, ellipsis := e } :=
      fun s ip e => ih _ (by simp only []; omega)
    rw [parseIPv6.loop]
    conv_rhs => rw [parseIPv6.loop]
    simp only [k]

/-- The inner loop of the zero-run search does not depend on fuel beyond
`(16 - j) / 2`. -/
theorem zeroRunEnd_fuel (p : IP) (f j : Nat) (h : 16 ≤ j + 2 * f) :
    zeroRunEnd p (f + 1) j = zeroRunEnd p f j := by
  induction f generalizing j with
  | zero =>
    have : ¬ j < 16 := by omega
    simp [zeroRunEnd, this]
  | succ f ih =>
    rw [zeroRunEnd]
    conv_rhs => rw [zeroRunEnd]
    split_ifs
    · apply ih; omega
    · rfl

/-- The inner loop of the zero-run search never moves backwards. -/
theorem zeroRunEnd_ge (p : IP) (f j : Nat) : j ≤ zeroRunEnd p f j := by
  induction f generalizing j with
  | zero => simp [zeroRunEnd]
  | succ f ih =>
    rw [zeroRunEnd]
    split_ifs
    · exact Nat.le_trans (by omega) (ih (j + 2))
    · exact le_refl _

/-- The outer loop of the zero-run search does not depend on fuel beyond
`(16 - i) / 2`. -/
theorem longestRun_fuel (p : IP) (f i : Nat) (e0 e1 : Int) (h : 16 ≤ i + 2 * f) :
    longestRun p (f + 1) i e0 e1 = longestRun p f i e0 e1 := by
  induction f generalizing i e0 e1 with
  | zero =>
    have : ¬ i < 16 := by omega
    simp [longestRun, this]
  | succ f ih =>
    rw [longestRun]
    conv_rhs => rw [longestRun]
    have := zeroRunEnd_ge p 8 i
    dsimp only
    split_ifs
    · apply ih; omega
    · apply ih; omega
    · rfl

/-- The print loop does not depend on fuel beyond `(16 - i) / 2`, for a run
`[e0, e1)` with `e0 ≤ e1`. -/
theorem printLoop_fuel (p : IP) (e0 e1 : Int) (he : e0 ≤ e1) (f i : Nat) (b : GoString)
    (h : 16 ≤ i + 2 * f) :
    printLoop p e0 e1 (f + 1) i b = printLoop p e0 e1 f i b := by
  induction f generalizing i b with
  | zero =>
    have : ¬ i < 16 := by omega
    simp [printLoop, this]
  | succ f ih =>
    rw [printLoop]
    conv_rhs => rw [printLoop]
    dsimp only
    split_ifs <;> first
      | (apply ih; omega)
      | rfl

/-- The digit loop of `uitoa` does not depend on fuel beyond the number of
digits (a 64-bit value has at most 20). -/
theorem uitoa_go_fuel (f val : Nat) (acc : GoString) (h : val < 10 ^ (f + 1)) :
    uitoa.go (f + 2) val acc = uitoa.go (f + 1) val acc := by
  induction f generalizing val acc with
  | zero =>
    have : ¬ val ≥ 10 := by omega
    simp [uitoa.go, this]
  | succ f ih =>
    rw [uitoa.go]
    conv_rhs => rw [uitoa.go]
    split_ifs
    · apply ih; rw [pow_succ] at h; omega
    · rfl

/-- More fuel than `(16 - i) / 2` gives the same result of the main loop of
`parseIPv6`. -/
theorem parseIPv6_loop_fuel_add (k f : Nat) (st : V6State) (h : 16 ≤ st.i + 2 * f) :
    parseIPv6.loop (f + k) st = parseIPv6.loop f st := by
  induction k with
  | zero => rfl
  | succ k ih => rw [← Nat.add_assoc, parseIPv6_loop_fuel _ _ (by omega), ih]

/-- More fuel than `(16 - i) / 2` gives the same result of the zero-run
search. -/
theorem longestRun_fuel_add (p : IP) (k f i : Nat) (e0 e1 : Int) (h : 16 ≤ i + 2 * f) :
    longestRun p (f + k) i e0 e1 = longestRun p f i e0 e1 := by
  induction k with
  | zero => rfl
  | succ k ih => rw [← Nat.add_assoc, longestRun_fuel _ _ _ _ _ (by omega), ih]

/-- More fuel than `(16 - i) / 2` gives the same result of the print loop. -/
theorem printLoop_fuel_add (p : IP) (e0 e1 : Int) (he : e0 ≤ e1) (k f i : Nat) (b : GoString)
    (h : 16 ≤ i + 2 * f) :
    printLoop p e0 e1 (f + k) i b = printLoop p e0 e1 f i b := by
  induction k with
  | zero => rfl
  | succ k ih => rw [← Nat.add_assoc, printLoop_fuel _ _ _ he _ _ _ (by omega), ih]

/-! ## `ParseIP` reads back what `IP.String` prints -/

/-- The loop of `parseIPv4Fields` keeps four octets below 256. -/
theorem parseIPv4Fields_loop_bytes (t : GoString) (prev : Option Nat) (val pos digLen : Nat)
    (fields : List Nat) (v p : Nat) (f : List Nat)
    (h : parseIPv4Fields.loop t prev val pos digLen fields = some (v, p, f))
    (hf : fields.length = 4 ∧ ∀ b ∈ fields, b < 256) :
    f.length = 4 ∧ ∀ b ∈ f, b < 256 := by
  induction t generalizing prev val pos digLen fields with
  | nil =>
    simp only [parseIPv4Fields.loop, Option.some.injEq, Prod.mk.injEq] at h
    obtain ⟨-, -, rfl⟩ := h
    exact hf
  | cons c u ih =>
    simp only [parseIPv4Fields.loop] at h
    split at h
    · split at h
      · simp at h
      · split at h
        · simp at h
        · exact ih _ _ _ _ _ h hf
    · split at h
      · split at h
        · simp at h
        · split at h
          · simp at h
          · refine ih _ _ _ _ _ h ⟨by simp [hf.1], ?_⟩
            intro b hb
            rcases List.mem_or_eq_of_mem_set hb with hb | hb
            · exact hf.2 b hb
            · rw [hb]; exact Nat.mod_lt _ (by norm_num)
      · simp at h

/-- What `parseIPv4Fields` returns: four octets below 256. -/
theorem parseIPv4Fields_bytes (s : GoString) (f : List Nat) (h : parseIPv4Fields s = some f) :
    f.length = 4 ∧ ∀ b ∈ f, b < 256 := by
  unfold parseIPv4Fields at h
  split at h
  · simp at h
  · rename_i v p f1 heq
    split at h
    · simp at h
    · simp only [Option.some.injEq] at h
      subst h
      obtain ⟨h1, h2⟩ := parseIPv4Fields_loop_bytes _ _ _ _ _ _ _ _ _ heq
        ⟨rfl, by intro b hb; simp at hb; omega⟩
      refine ⟨by simp [h1], ?_⟩
      intro b hb
      rcases List.mem_or_eq_of_mem_set hb with hb | hb
      · exact h2 b hb
      · rw [hb]; exact Nat.mod_lt _ (by norm_num)

/-- Every byte read from a list of bytes is below 256. -/
theorem bytes_getD (f : List Nat) (i : Nat) (h : ∀ b ∈ f, b < 256) : f.getD i 0 < 256 := by
  rw [List.getD_eq_getElem?_getD]
  cases hg : f[i]? with
  | none => simp
  | some v =>
    simp only [Option.getD_some]
    exact h v (List.getElem?_mem hg)

/-- The 16-byte form of an IPv4 address is well formed. -/
theorem IPv4_wf (a b c d : Nat) (h : a < 256 ∧ b < 256 ∧ c < 256 ∧ d < 256) :
    IP.wf (IPv4 a b c d) := by
  refine ⟨by simp [IPv4, v4InV6Prefix], ?_⟩
  intro x hx
  simp only [IPv4, v4InV6Prefix, List.cons_append, List.nil_append, List.mem_cons,
    List.mem_singleton, List.not_mem_nil, or_false] at hx
  omega

/-- What `parseIPv4` returns is well formed. -/
theorem parseIPv4_wf (s : GoString) (ip : IP) (h : parseIPv4 s = some ip) : IP.wf ip := by
  unfold parseIPv4 at h
  split at h
  · simp at h
  · rename_i f heq
    simp only [Option.some.injEq] at h
    subst h
    obtain ⟨h1, h2⟩ := parseIPv4Fields_bytes s f heq
    refine ⟨by simp [v4InV6Prefix, h1], ?_⟩
    intro b hb
    rcases List.mem_append.1 hb with hb | hb
    · simp only [v4InV6Prefix, List.mem_cons, List.mem_singleton, List.not_mem_nil,
        or_false] at hb
      omega
    · exact h2 b hb

/-- Storing a byte keeps an address well formed. -/
theorem wf_set (ip : IP) (i v : Nat) (h : IP.wf ip) (hv : v < 256) : IP.wf (ip.set i v) := by
  refine ⟨by simp [h.1], ?_⟩
  intro b hb
  rcases List.mem_or_eq_of_mem_set hb with hb | hb
  · exact h.2 b hb
  · rw [hb]; exact hv

/-- Every byte read from a well-formed address is below 256. -/
theorem wf_getD (ip : IP) (i : Nat) (h : IP.wf ip) : ip.getD i 0 < 256 :=
  bytes_getD ip i h.2

/-- The main loop of `parseIPv6` keeps its invariant. -/
theorem parseIPv6_loop_inv (fuel : Nat) (st st1 : V6State) (h : parseIPv6.loop fuel st = some st1)
    (hi : st.inv) : st1.inv := by
  induction fuel generalizing st with
  | zero =>
    simp only [parseIPv6.loop, Option.some.injEq] at h
    rw [← h]; exact hi
  | succ fuel ih =>
    obtain ⟨hwf, hi16, hpar, hel, hel2⟩ := hi
    simp only [parseIPv6.loop] at h
    split at h
    · simp only [Option.some.injEq] at h
      rw [← h]; exact ⟨hwf, hi16, hpar, hel, hel2⟩
    · rename_i hlt
      simp only [not_not] at hlt
      split at h
      · simp at h
      · rename_i n c hx
        split at h
        · simp at h
        · split at h
          · split at h
            · simp at h
            · split at h
              · simp at h
              · rename_i hroom
                split at h
                · simp at h
                · rename_i f h4
                  simp only [Option.some.injEq] at h
                  subst h
                  have w4 := (parseIPv4Fields_bytes _ _ h4).2
                  refine ⟨?_, by simp; omega, by simp; omega, hel, by simp; omega⟩
                  exact wf_set _ _ _ (wf_set _ _ _ (wf_set _ _ _ (wf_set _ _ _ hwf
                    (bytes_getD _ _ w4)) (bytes_getD _ _ w4)) (bytes_getD _ _ w4))
                    (bytes_getD _ _ w4)
          · have hwf2 : IP.wf ((st.ip.set st.i ((n >>> 8) % 256)).set (st.i + 1) (n % 256)) :=
              wf_set _ _ _ (wf_set _ _ _ hwf (Nat.mod_lt _ (by norm_num)))
                (Nat.mod_lt _ (by norm_num))
            split at h
            · simp only [Option.some.injEq] at h
              subst h
              exact ⟨hwf2, by simp; omega, by simp; omega, hel, by simp; omega⟩
            · split at h
              · simp at h
              · split at h
                · split at h
                  · simp at h
                  · split at h
                    · simp only [Option.some.injEq] at h
                      subst h
                      exact ⟨hwf2, by simp; omega, by simp; omega, by simp; omega, by simp⟩
                    · exact ih _ h ⟨hwf2, by simp; omega, by simp; omega, by simp; omega, by simp⟩
                · exact ih _ h ⟨hwf2, by simp; omega, by simp; omega, hel, by simp; omega⟩

/-- The expansion of the ellipsis gives a well-formed address. -/
theorem expandEllipsis_wf (ip : IP) (i e : Nat) (h : IP.wf ip) (hi : i ≤ 16) (he : e ≤ i) :
    IP.wf (expandEllipsis ip i e) := by
  refine ⟨?_, ?_⟩
  · simp only [expandEllipsis, List.length_append, List.length_take, List.length_replicate,
      List.length_drop, h.1]
    omega
  · intro b hb
    simp only [expandEllipsis, List.mem_append, List.mem_replicate] at hb
    rcases hb with (hb | hb) | hb
    · exact h.2 b (List.mem_of_mem_take hb)
    · omega
    · exact h.2 b (List.mem_of_mem_drop (List.mem_of_mem_take hb))

/-- The zero address is well formed. -/
theorem replicate_wf : IP.wf (List.replicate 16 0) := by
  refine ⟨by simp, ?_⟩
  intro b hb
  simp only [List.mem_replicate] at hb
  omega

/-- What `parseIPv6` returns after the leading ellipsis is well formed. -/
theorem parseIPv6_run_wf (s : GoString) (e : Int) (ip : IP) (he : e = 0 ∨ e = -1)
    (h : parseIPv6.run s e = some ip) : IP.wf ip := by
  unfold parseIPv6.run at h
  split at h
  · simp at h
  · rename_i st hst
    have hinv := parseIPv6_loop_inv _ _ _ hst
      ⟨replicate_wf, by simp, by simp, by simp only []; omega, by simp only []; omega⟩
    split at h
    · simp at h
    · split at h
      · split at h
        · simp at h
        · simp only [Option.some.injEq] at h
          rw [← h]
          exact expandEllipsis_wf _ _ _ hinv.1 hinv.2.1 (by have := hinv.2.2.2.2; omega)
      · split at h
        · simp at h
        · simp only [Option.some.injEq] at h
          rw [← h]; exact hinv.1

/-- What the body of `parseIPv6` returns is well formed. -/
theorem parseIPv6_addr_wf (s : GoString) (ip : IP) (h : parseIPv6.addr s = some ip) :
    IP.wf ip := by
  unfold parseIPv6.addr at h
  split at h
  · split at h
    · simp only [Option.some.injEq] at h
      rw [← h]; exact replicate_wf
    · exact parseIPv6_run_wf _ _ _ (Or.inl rfl) h
  · exact parseIPv6_run_wf _ _ _ (Or.inr rfl) h

/-- An address that `parseIPv6` returns without a zone comes from the body of
`parseIPv6` on a string without percent sign. -/
theorem parseIPv6_no_zone (s : GoString) (ip : IP) (h : parseIPv6 s = some (ip, [])) :
    parseIPv6.addr s = some ip ∧ 37 ∉ s := by
  unfold parseIPv6 at h
  simp only at h
  split at h
  · split at h
    · simp at h
    · rename_i hz
      split at h
      · simp at h
      · simp only [Option.some.injEq, Prod.mk.injEq] at h
        rw [h.2] at hz
        simp at hz
  · rename_i hi
    simp only [ne_eq, not_not] at hi
    split at h
    · simp at h
    · rename_i ip1 heq
      simp only [Option.some.injEq, Prod.mk.injEq, and_true] at h
      subst h
      refine ⟨heq, ?_⟩
      intro hm
      have := IndexByte_present 37 s hm
      omega

/-- What the dispatch of `ParseAddr` returns comes from one of the two
parsers. -/
theorem ParseAddr_scan_cases (s t : GoString) (ip : IP) (zone : GoString)
    (h : ParseAddr.scan s t = some (ip, zone)) :
    (parseIPv4 s = some ip ∧ zone = []) ∨ parseIPv6 s = some (ip, zone) := by
  induction t with
  | nil => simp [ParseAddr.scan] at h
  | cons c u ih =>
    simp only [ParseAddr.scan] at h
    split at h
    · split at h
      · simp at h
      · rename_i ip1 heq
        simp only [Option.some.injEq, Prod.mk.injEq] at h
        left
        rw [heq, h.1]
        exact ⟨rfl, h.2.symm⟩
    · split at h
      · exact Or.inr h
      · split at h
        · simp at h
        · exact ih h

/-- What `ParseIP` returns comes from `parseIPv4`, or from the body of
`parseIPv6` on a string without percent sign. -/
theorem ParseIP_cases (s : GoString) (ip : IP) (h : ParseIP s = some ip) :
    parseIPv4 s = some ip ∨ (parseIPv6.addr s = some ip ∧ 37 ∉ s) := by
  unfold ParseIP at h
  split at h
  · simp at h
  · rename_i ip1 zone heq
    split at h
    · simp at h
    · rename_i hz
      simp only [ne_eq, not_not] at hz
      simp only [Option.some.injEq] at h
      subst h
      subst hz
      rcases ParseAddr_scan_cases s s ip1 [] heq with ⟨h4, -⟩ | h6
      · exact Or.inl h4
      · exact Or.inr (parseIPv6_no_zone s ip1 h6)

/-- Every address that `ParseIP` returns has 16 bytes. -/
theorem ParseIP_wf (s : GoString) (ip : IP) (h : ParseIP s = some ip) : IP.wf ip := by
  rcases ParseIP_cases s ip h with h4 | ⟨h6, -⟩
  · exact parseIPv4_wf s ip h4
  · exact parseIPv6_addr_wf s ip h6

/-- The loop of `appendHex` appends to its buffer. -/
theorem appendHex_go_eq (g k : Nat) (dst : GoString) :
    appendHex.go g k dst = dst ++ appendHex.go g k [] := by
  induction k generalizing dst with
  | zero => simp [appendHex.go]
  | succ k ih =>
    simp only [appendHex.go]
    conv_lhs => rw [ih]
    conv_rhs => rw [ih]
    split <;> simp

/-- The function `appendHex` appends the hexadecimal text of the group. -/
theorem appendHex_eq (dst : GoString) (g : Nat) : appendHex dst g = dst ++ hex g := by
  unfold hex appendHex
  split
  · simp
  · rw [appendHex_go_eq]

/-- Masking with `0xf` is the remainder modulo 16. -/
theorem and_15 (v : Nat) : v &&& 15 = v % 16 := Nat.and_pow_two_sub_one_eq_mod v 4

/-- The digits of `hex g` for a 16-bit group. -/
theorem hex_digits (g : Nat) (h0 : 0 < g) (hg : g < 65536) :
    hex g =
      (if 0 < g / 4096 then [hexDigit.getD (g / 4096 % 16) 0] else []) ++
      ((if 0 < g / 256 then [hexDigit.getD (g / 256 % 16) 0] else []) ++
      ((if 0 < g / 16 then [hexDigit.getD (g / 16 % 16) 0] else []) ++
      [hexDigit.getD (g % 16) 0])) := by
  have e7 : g >>> 28 = 0 := by rw [Nat.shiftRight_eq_div_pow]; omega
  have e6 : g >>> 24 = 0 := by rw [Nat.shiftRight_eq_div_pow]; omega
  have e5 : g >>> 20 = 0 := by rw [Nat.shiftRight_eq_div_pow]; omega
  have e4 : g >>> 16 = 0 := by rw [Nat.shiftRight_eq_div_pow]; omega
  have e3 : g >>> 12 = g / 4096 := by rw [Nat.shiftRight_eq_div_pow]
  have e2 : g >>> 8 = g / 256 := by rw [Nat.shiftRight_eq_div_pow]
  have e1 : g >>> 4 = g / 16 := by rw [Nat.shiftRight_eq_div_pow]
  have e0 : g >>> 0 = g := rfl
  have hne : g ≠ 0 := by omega
  unfold hex appendHex
  rw [if_neg hne]
  simp only [appendHex.go, Nat.reduceMul, e7, e6, e5, e4, e3, e2, e1, e0, and_15,
    gt_iff_lt, lt_self_iff_false, if_false, h0, if_true]
  split_ifs <;> simp

/-- The bytes of `hexDigit`. -/
theorem hexDigit_eq : hexDigit = [48, 49, 50, 51, 52, 53, 54, 55, 56, 57, 97, 98, 99, 100, 101, 102] := by
  decide

/-- The hex number loop of `parseIPv6` reads one digit of `hexDigit` with its
value. -/
theorem hex_loop_digit (d : Nat) (hd : d < 16) (t : GoString) (acc off : Nat) (ho : off ≤ 3)
    (hn : acc * 16 + d ≤ 65535) :
    parseIPv6.hex (hexDigit.getD d 0 :: t) acc off = parseIPv6.hex t (acc * 16 + d) (off + 1) := by
  have e : acc <<< 4 = acc * 16 := by rw [Nat.shiftLeft_eq]
  have h1 : ¬ 3 < off := by omega
  rw [hexDigit_eq]
  interval_cases d <;> simp [parseIPv6.hex, e, h1] <;> omega

/-- The hex number loop of `parseIPv6` stops at the end of a group. -/
theorem hex_loop_end (t : GoString) (acc off : Nat) (ht : groupEnd t) :
    parseIPv6.hex t acc off = some (acc, off) := by
  rcases ht with rfl | ⟨u, rfl⟩
  · simp [parseIPv6.hex]
  · simp [parseIPv6.hex]

/-- The text of the group 0 is `0`. -/
theorem hex_zero : hex 0 = [48] := by decide

/-- Parsing the hexadecimal text of a 16-bit group gives the group back. -/
theorem hex_loop_hex (g : Nat) (hg : g < 65536) (t : GoString) (ht : groupEnd t) :
    parseIPv6.hex (hex g ++ t) 0 0 = some (g, (hex g).length) := by
  by_cases h0 : g = 0
  · subst h0
    rw [hex_zero]
    have := hex_loop_digit 0 (by norm_num) t 0 0 (by norm_num) (by norm_num)
    rw [hexDigit_eq] at this
    simp only [List.getD_cons_zero] at this
    simp only [List.singleton_append, this]
    rw [hex_loop_end t _ _ ht]
    rfl
  · rw [hex_digits g (by omega) hg]
    split_ifs <;>
      first
      | (exfalso; omega)
      | (simp only [List.cons_append, List.nil_append, List.append_nil, List.singleton_append]
         repeat rw [hex_loop_digit _ (by omega) _ _ _ (by omega) (by omega)]
         rw [hex_loop_end t _ _ ht]
         simp only [List.length_cons, List.length_nil, Option.some.injEq, Prod.mk.injEq,
           Nat.zero_add, Nat.reduceAdd, and_true]
         omega)

/-- The text of a 16-bit group has one to four digits. -/
theorem hex_length (g : Nat) (hg : g < 65536) : 0 < (hex g).length ∧ (hex g).length ≤ 4 := by
  by_cases h0 : g = 0
  · subst h0; rw [hex_zero]; simp
  · rw [hex_digits g (by omega) hg]
    split_ifs <;> simp

/-- No digit of `hexDigit` is a colon or a dot. -/
theorem hexDigit_getD_ne (d : Nat) (hd : d < 16) :
    hexDigit.getD d 0 ≠ 58 ∧ hexDigit.getD d 0 ≠ 46 := by
  rw [hexDigit_eq]
  interval_cases d <;> simp

/-- The text of a group holds no colon and no dot. -/
theorem hex_chars (g : Nat) (hg : g < 65536) : ∀ c ∈ hex g, c ≠ 58 ∧ c ≠ 46 := by
  by_cases h0 : g = 0
  · subst h0; rw [hex_zero]; simp
  · rw [hex_digits g (by omega) hg]
    intro c hc
    simp only [List.mem_append, List.mem_singleton] at hc
    rcases hc with hc | hc | hc | hc
    · split at hc
      · simp only [List.mem_singleton] at hc
        rw [hc]; exact hexDigit_getD_ne _ (by omega)
      · simp at hc
    · split at hc
      · simp only [List.mem_singleton] at hc
        rw [hc]; exact hexDigit_getD_ne _ (by omega)
      · simp at hc
    · split at hc
      · simp only [List.mem_singleton] at hc
        rw [hc]; exact hexDigit_getD_ne _ (by omega)
      · simp at hc
    · rw [hc]; exact hexDigit_getD_ne _ (by omega)

/-- The text of a group is not empty. -/
theorem hex_ne_nil (g : Nat) (hg : g < 65536) : hex g ≠ [] := by
  by_cases h0 : g = 0
  · subst h0; rw [hex_zero]; simp
  · rw [hex_digits g (by omega) hg]
    simp

/-- Text that starts with a group starts with a byte that is no colon and no
dot. -/
theorem hex_head (g : Nat) (hg : g < 65536) (t : GoString) :
    ∃ c u, hex g ++ t = c :: u ∧ c ≠ 58 ∧ c ≠ 46 := by
  cases h : hex g with
  | nil => exact absurd h (hex_ne_nil g hg)
  | cons c u =>
    refine ⟨c, u ++ t, by simp, hex_chars g hg c (by simp [h])⟩

/-- The byte after the text of a group is no dot. -/
theorem groupEnd_getD (g : Nat) (t : GoString) (ht : groupEnd t) :
    ¬ ((hex g).length < (hex g ++ t).length ∧ (hex g ++ t).getD (hex g).length 0 = 46) := by
  rcases ht with rfl | ⟨u, rfl⟩
  · simp
  · intro h
    have h2 := h.2
    rw [List.getD_eq_getElem?_getD, List.getElem?_append_right (le_refl _)] at h2
    simp at h2

/-- One iteration of the main loop of `parseIPv6` on the last group of the
text. -/
theorem loop_step_last (f i : Nat) (ip : IP) (e : Int) (g : Nat) (hi : i < 16)
    (hg : g < 65536) :
    parseIPv6.loop (f + 1) { s := hex g, i := i, ip := ip, ellipsis := e }
      = some { s := [], i := i + 2, ip := store ip i g, ellipsis := e } := by
  have hx := hex_loop_hex g hg [] (Or.inl rfl)
  have hd := groupEnd_getD g [] (Or.inl rfl)
  have hl : (hex g).length ≠ 0 := by have := (hex_length g hg).1; omega
  simp only [List.append_nil] at hx hd
  simp only [parseIPv6.loop, hx, hd, hl]
  simp [hi, store]

/-- One iteration of the main loop of `parseIPv6` on a group followed by a
colon and more text. -/
theorem loop_step_colon (f i : Nat) (ip : IP) (e : Int) (g : Nat) (t : GoString) (hi : i < 16)
    (hg : g < 65536) (ht : t ≠ []) (hh : t.head? ≠ some 58) :
    parseIPv6.loop (f + 1) { s := hex g ++ 58 :: t, i := i, ip := ip, ellipsis := e }
      = parseIPv6.loop f { s := t, i := i + 2, ip := store ip i g, ellipsis := e } := by
  have hx := hex_loop_hex g hg (58 :: t) (Or.inr ⟨t, rfl⟩)
  have hd := groupEnd_getD g (58 :: t) (Or.inr ⟨t, rfl⟩)
  have hl : t.length ≠ 0 := by simpa using ht
  have hl0 : (hex g).length ≠ 0 := by have := (hex_length g hg).1; omega
  conv_lhs => simp only [parseIPv6.loop, hx, hd, hl0]
  simp [hi, store, hl, hh]

/-- One iteration of the main loop of `parseIPv6` on a group followed by `::`
and more text. -/
theorem loop_step_ellipsis (f i : Nat) (ip : IP) (g : Nat) (t : GoString) (hi : i < 16)
    (hg : g < 65536) (ht : t ≠ []) :
    parseIPv6.loop (f + 1) { s := hex g ++ 58 :: 58 :: t, i := i, ip := ip, ellipsis := -1 }
      = parseIPv6.loop f { s := t, i := i + 2, ip := store ip i g, ellipsis := ((i + 2 : Nat) : Int) } := by
  have hx := hex_loop_hex g hg (58 :: 58 :: t) (Or.inr ⟨_, rfl⟩)
  have hd := groupEnd_getD g (58 :: 58 :: t) (Or.inr ⟨_, rfl⟩)
  have hl : t.length ≠ 0 := by simpa using ht
  have hl0 : (hex g).length ≠ 0 := by have := (hex_length g hg).1; omega
  conv_lhs => simp only [parseIPv6.loop, hx, hd, hl0]
  simp [hi, store, hl]

/-- One iteration of the main loop of `parseIPv6` on a group followed by a
final `::`. -/
theorem loop_step_ellipsis_end (f i : Nat) (ip : IP) (g : Nat) (hi : i < 16)
    (hg : g < 65536) :
    parseIPv6.loop (f + 1) { s := hex g ++ [58, 58], i := i, ip := ip, ellipsis := -1 }
      = some { s := [], i := i + 2, ip := store ip i g, ellipsis := ((i + 2 : Nat) : Int) } := by
  have hx := hex_loop_hex g hg [58, 58] (Or.inr ⟨_, rfl⟩)
  have hd := groupEnd_getD g [58, 58] (Or.inr ⟨_, rfl⟩)
  have hl0 : (hex g).length ≠ 0 := by have := (hex_length g hg).1; omega
  conv_lhs => simp only [parseIPv6.loop, hx, hd, hl0]
  simp [hi, store]

/-- A group of a well-formed address is below `2^16`. -/
theorem group_lt (ip : IP) (h : IP.wf ip) (i : Nat) : group ip i < 65536 := by
  have h1 := wf_getD ip i h
  have h2 := wf_getD ip (i + 1) h
  unfold group
  rw [Nat.shiftLeft_eq, Nat.mul_comm, ← Nat.mul_add_lt_is_or (by omega)]
  omega

/-- The bytes stored for a group of `ip` are the two bytes of the group. -/
theorem store_group (l ip : IP) (h : IP.wf ip) (i j : Nat) :
    store l i (group ip j) = (l.set i (ip.getD j 0)).set (i + 1) (ip.getD (j + 1) 0) := by
  have h1 := wf_getD ip j h
  have h2 := wf_getD ip (j + 1) h
  have e : group ip j = 256 * ip.getD j 0 + ip.getD (j + 1) 0 := by
    unfold group
    rw [Nat.shiftLeft_eq, Nat.mul_comm, ← Nat.mul_add_lt_is_or (by omega)]
  unfold store
  rw [e, Nat.shiftRight_eq_div_pow]
  congr 2 <;> omega

/-- The inner loop of the zero-run search stops at an even index up to 16,
after zero bytes only. -/
theorem zeroRunEnd_spec (p : IP) (f j : Nat) (hj : j % 2 = 0) (hj16 : j ≤ 16) :
    j ≤ zeroRunEnd p f j ∧ zeroRunEnd p f j ≤ 16 ∧ zeroRunEnd p f j % 2 = 0 ∧
      ∀ k, j ≤ k → k < zeroRunEnd p f j → p.getD k 0 = 0 := by
  induction f generalizing j with
  | zero =>
    simp only [zeroRunEnd]
    exact ⟨le_refl _, hj16, hj, fun k h1 h2 => by omega⟩
  | succ f ih =>
    simp only [zeroRunEnd]
    split
    · rename_i hc
      obtain ⟨h1, h2, h3, h4⟩ := ih (j + 2) (by omega) (by omega)
      refine ⟨by omega, h2, h3, ?_⟩
      intro k hk1 hk2
      by_cases e1 : k = j
      · rw [e1]; exact hc.2.1
      · by_cases e2 : k = j + 1
        · rw [e2]; exact hc.2.2
        · exact h4 k (by omega) hk2
    · exact ⟨le_refl _, hj16, hj, fun k h1 h2 => by omega⟩

/-- The zero-run search keeps a run of zero bytes at even indices, or none. -/
theorem longestRun_good (p : IP) (f i : Nat) (e0 e1 : Int) (hi : i % 2 = 0)
    (hg : goodRun p e0 e1) :
    goodRun p (longestRun p f i e0 e1).1 (longestRun p f i e0 e1).2 := by
  induction f generalizing i e0 e1 with
  | zero => simpa [longestRun] using hg
  | succ f ih =>
    simp only [longestRun]
    split
    · rename_i hlt
      obtain ⟨h1, h2, h3, h4⟩ := zeroRunEnd_spec p 8 i hi (by omega)
      split
      · rename_i hc
        apply ih _ _ _ (by omega)
        right
        exact ⟨i, zeroRunEnd p 8 i, rfl, rfl, hi, h3, by omega, h2, h4⟩
      · exact ih _ _ _ (by omega) hg
    · exact hg

/-- Text that starts with a group is not empty. -/
theorem hex_append_ne_nil (g : Nat) (hg : g < 65536) (t : GoString) : hex g ++ t ≠ [] := by
  intro e
  obtain ⟨c, u, h1, -⟩ := hex_head g hg t
  rw [h1] at e; simp at e

/-- Text that starts with a group does not start with a colon. -/
theorem hex_append_head (g : Nat) (hg : g < 65536) (t : GoString) :
    (hex g ++ t).head? ≠ some 58 := by
  intro e
  obtain ⟨c, u, h1, h2, -⟩ := hex_head g hg t
  rw [h1] at e; simp at e; exact h2 e

/-- The text of a group does not start with a colon. -/
theorem hex_head_ne (g : Nat) (hg : g < 65536) : (hex g).head? ≠ some 58 := by
  simpa using hex_append_head g hg []

/-- The first byte of text that starts with a group is no colon. -/
theorem hex_append_getD (g : Nat) (hg : g < 65536) (t : GoString) :
    (hex g ++ t).getD 0 0 ≠ 58 := by
  obtain ⟨c, u, h1, h2, -⟩ := hex_head g hg t
  rw [h1]; simpa using h2

/-- The first byte of the text of a group is no colon. -/
theorem hex_getD (g : Nat) (hg : g < 65536) : (hex g).getD 0 0 ≠ 58 := by
  simpa using hex_append_getD g hg []

/-- On text that starts with a group `parseIPv6` finds no leading ellipsis. -/
theorem parseIPv6_nolead (g : Nat) (hg : g < 65536) (t : GoString) :
    parseIPv6.addr (hex g ++ t) = parseIPv6.run (hex g ++ t) (-1) := by
  unfold parseIPv6.addr
  rw [if_neg]
  intro h
  exact hex_append_getD g hg t h.2.1

/-- On the text of a single group `parseIPv6` finds no leading ellipsis. -/
theorem parseIPv6_nolead_one (g : Nat) (hg : g < 65536) :
    parseIPv6.addr (hex g) = parseIPv6.run (hex g) (-1) := by
  simpa using parseIPv6_nolead g hg []

/-- On text that starts with `::` and goes on `parseIPv6` records the leading
ellipsis. -/
theorem parseIPv6_lead (t : GoString) (ht : t ≠ []) :
    parseIPv6.addr (58 :: 58 :: t) = parseIPv6.run t 0 := by
  unfold parseIPv6.addr
  have : t.length ≠ 0 := by simpa using ht
  simp [this]

/-- A list of length 16 is its 16 elements. -/
theorem length16 (ip : List Nat) (h : ip.length = 16) :
    ∃ x0 x1 x2 x3 x4 x5 x6 x7 x8 x9 x10 x11 x12 x13 x14 x15 : Nat, ip = [x0, x1, x2, x3, x4, x5, x6, x7, x8, x9, x10, x11, x12, x13, x14, x15] := by
  rcases ip with _ | ⟨x0, _ | ⟨x1, _ | ⟨x2, _ | ⟨x3, _ | ⟨x4, _ | ⟨x5, _ | ⟨x6, _ | ⟨x7, _ | ⟨x8, _ | ⟨x9, _ | ⟨x10, _ | ⟨x11, _ | ⟨x12, _ | ⟨x13, _ | ⟨x14, _ | ⟨x15, _ | ⟨y, t⟩⟩⟩⟩⟩⟩⟩⟩⟩⟩⟩⟩⟩⟩⟩⟩⟩
  all_goals first
    | exact ⟨_, _, _, _, _, _, _, _, _, _, _, _, _, _, _, _, rfl⟩
    | (simp at h)

/-- The text `::` is the zero address. -/
theorem parseIPv6_only : parseIPv6.addr [58, 58] = some (List.replicate 16 0) := by decide

/-- The decimal digits `uitoa` prints for an octet. -/
theorem uitoa_digits (n : Nat) (hn : n < 256) :
    uitoa n =
      if n < 10 then [48 + n]
      else if n < 100 then [48 + n / 10, 48 + n % 10]
      else [48 + n / 100, 48 + n / 10 % 10, 48 + n % 10] := by
  unfold uitoa
  by_cases h0 : n = 0
  · subst h0; simp
  · rw [if_neg h0]
    by_cases h1 : n < 10
    · have : ¬ n ≥ 10 := by omega
      simp [uitoa.go, h1, this]
    · by_cases h2 : n < 100
      · have e1 : n ≥ 10 := by omega
        have e2 : ¬ n / 10 ≥ 10 := by omega
        simp only [uitoa.go, e1, e2, if_true, if_false, h1, h2]
        simp only [List.cons.injEq, and_true, true_and, Nat.add_left_cancel_iff]
        omega
      · have e1 : n ≥ 10 := by omega
        have e2 : n / 10 ≥ 10 := by omega
        have e3 : ¬ n / 10 / 10 ≥ 10 := by omega
        simp only [uitoa.go, e1, e2, e3, if_true, if_false, h1, h2]
        simp only [List.cons.injEq, and_true, true_and, Nat.add_left_cancel_iff]
        omega

/-- The loop of `parseIPv4Fields` reads one decimal digit that is no second
digit after a zero. -/
theorem v4_loop_digit (c : Nat) (hc : 48 ≤ c ∧ c ≤ 57) (t : GoString) (prev : Option Nat)
    (val pos digLen : Nat) (f : List Nat) (h1 : ¬ (digLen = 1 ∧ val = 0))
    (h2 : val * 10 + (c - 48) ≤ 255) :
    parseIPv4Fields.loop (c :: t) prev val pos digLen f
      = parseIPv4Fields.loop t (some c) (val * 10 + (c - 48)) pos (digLen + 1) f := by
  have h3 : ¬ (val * 10 + (c - 48) > 255) := by omega
  simp only [parseIPv4Fields.loop, hc, and_self, if_true, h1, h3, if_false]

/-- The loop of `parseIPv4Fields` stores the octet at a dot that follows a
digit and is not the last byte. -/
theorem v4_loop_dot (t : GoString) (ht : t ≠ []) (d : Nat) (hd : 48 ≤ d ∧ d ≤ 57)
    (val pos digLen : Nat) (f : List Nat) (hp : pos < 3) :
    parseIPv4Fields.loop (46 :: t) (some d) val pos digLen f
      = parseIPv4Fields.loop t (some 46) 0 (pos + 1) 0 (f.set pos (val % 256)) := by
  have h1 : ¬ (48 ≤ 46 ∧ 46 ≤ 57) := by omega
  have h2 : t.length ≠ 0 := by simpa using ht
  have h3 : d ≠ 46 := by omega
  have h4 : pos ≠ 3 := by omega
  simp [parseIPv4Fields.loop, h2, h3, h4]

/-- The loop of `parseIPv4Fields` reads the decimal text of an octet. -/
theorem v4_loop_octet (n : Nat) (hn : n < 256) (t : GoString) (prev : Option Nat) (pos : Nat)
    (f : List Nat) :
    parseIPv4Fields.loop (uitoa n ++ t) prev 0 pos 0 f
      = parseIPv4Fields.loop t (some (48 + n % 10)) n pos (uitoa n).length f := by
  rw [uitoa_digits n hn]
  split_ifs with h1 h2
  · simp only [List.cons_append, List.nil_append]
    rw [v4_loop_digit _ (by omega) _ _ _ _ _ _ (by omega) (by omega)]
    simp only [Nat.zero_mul, Nat.zero_add, Nat.add_sub_cancel_left, List.length_cons,
      List.length_nil, Nat.mod_eq_of_lt h1]
  · simp only [List.cons_append, List.nil_append]
    rw [v4_loop_digit _ (by omega) _ _ _ _ _ _ (by omega) (by omega),
      v4_loop_digit _ (by omega) _ _ _ _ _ _ (by omega) (by omega)]
    simp only [Nat.zero_mul, Nat.zero_add, Nat.add_sub_cancel_left, List.length_cons,
      List.length_nil, Nat.reduceAdd]
    rw [show n / 10 * 10 + n % 10 = n by omega]
  · simp only [List.cons_append, List.nil_append]
    rw [v4_loop_digit _ (by omega) _ _ _ _ _ _ (by omega) (by omega),
      v4_loop_digit _ (by omega) _ _ _ _ _ _ (by omega) (by omega),
      v4_loop_digit _ (by omega) _ _ _ _ _ _ (by omega) (by omega)]
    simp only [Nat.zero_mul, Nat.zero_add, Nat.add_sub_cancel_left, List.length_cons,
      List.length_nil, Nat.reduceAdd]
    rw [show (n / 100 * 10 + n / 10 % 10) * 10 + n % 10 = n by omega]

/-- The text of an octet is made of decimal digits. -/
theorem uitoa_chars (n : Nat) (hn : n < 256) : ∀ c ∈ uitoa n, 48 ≤ c ∧ c ≤ 57 := by
  rw [uitoa_digits n hn]
  intro c hc
  split_ifs at hc <;> simp at hc <;> omega

/-- Text that starts with an octet is not empty. -/
theorem uitoa_ne_nil (n : Nat) (hn : n < 256) (t : GoString) : uitoa n ++ t ≠ [] := by
  rw [uitoa_digits n hn]
  split_ifs <;> simp

/-- Parsing the dotted-decimal text of four octets gives the octets back. -/
theorem parseIPv4_dotted (a b c d : Nat) (ha : a < 256) (hb : b < 256) (hc : c < 256)
    (hd : d < 256) :
    parseIPv4 (uitoa a ++ 46 :: (uitoa b ++ 46 :: (uitoa c ++ 46 :: uitoa d)))
      = some (IPv4 a b c d) := by
  have e4 := fun prev pos f => v4_loop_octet d hd [] prev pos f
  simp only [List.append_nil] at e4
  have n2 := uitoa_ne_nil b hb (46 :: (uitoa c ++ 46 :: uitoa d))
  have n3 := uitoa_ne_nil c hc (46 :: uitoa d)
  have n4 := uitoa_ne_nil d hd []
  simp only [List.append_nil] at n4
  unfold parseIPv4 parseIPv4Fields
  rw [v4_loop_octet a ha, v4_loop_dot _ n2 _ (by omega) _ _ _ _ (by omega),
    v4_loop_octet b hb, v4_loop_dot _ n3 _ (by omega) _ _ _ _ (by omega),
    v4_loop_octet c hc, v4_loop_dot _ n4 _ (by omega) _ _ _ _ (by omega), e4]
  simp [parseIPv4Fields.loop, IPv4, Nat.mod_eq_of_lt, ha, hb, hc, hd]

/-- The dispatch of `ParseAddr` chooses `parseIPv6` when a colon comes before
any dot or percent sign. -/
theorem ParseAddr_scan_colon (s t : GoString) (h37 : 37 ∉ t) (h46 : 46 ∉ t) (h58 : 58 ∈ t) :
    ParseAddr.scan s t = parseIPv6 s := by
  induction t with
  | nil => simp at h58
  | cons c u ih =>
    simp only [List.mem_cons, not_or] at h37 h46
    simp only [ParseAddr.scan]
    rw [if_neg (fun e => h46.1 e.symm)]
    by_cases hc : c = 58
    · simp [hc]
    · rw [if_neg hc, if_neg (fun e => h37.1 e.symm)]
      rcases List.mem_cons.1 h58 with h | h
      · exact absurd h.symm hc
      · exact ih h37.2 h46.2 h

/-- What the body of `parseIPv6` accepts, `ParseIP` accepts with the same
address, on a string with a colon, without dot and without percent sign. -/
theorem ParseIP_of_addr (s : GoString) (ip : IP) (h37 : 37 ∉ s) (h46 : 46 ∉ s) (h58 : 58 ∈ s)
    (h : parseIPv6.addr s = some ip) : ParseIP s = some ip := by
  unfold ParseIP ParseAddr
  rw [ParseAddr_scan_colon s s h37 h46 h58]
  unfold parseIPv6
  simp [IndexByte_absent 37 s h37, h]

/-- Every digit of `hexDigit` is a hexadecimal digit. -/
theorem hexDigit_getD_hex (v : Nat) : isHexDigit (hexDigit.getD (v &&& 0xf) 0) := by
  have e : v &&& 0xf = v % 16 := and_15 v
  rw [e, hexDigit_eq]
  have hlt : v % 16 < 16 := Nat.mod_lt _ (by norm_num)
  generalize v % 16 = d at hlt
  unfold isHexDigit
  interval_cases d <;> simp

/-- The loop of `appendHex` appends hexadecimal digits. -/
theorem appendHex_go_chars (g k : Nat) (dst : GoString) :
    ∀ c ∈ appendHex.go g k dst, c ∈ dst ∨ isHexDigit c := by
  induction k generalizing dst with
  | zero => intro c hc; exact Or.inl hc
  | succ k ih =>
    intro c hc
    simp only [appendHex.go] at hc
    rcases ih _ c hc with h | h
    · split at h
      · rcases List.mem_append.1 h with h | h
        · exact Or.inl h
        · simp only [List.mem_singleton] at h
          rw [h]; exact Or.inr (hexDigit_getD_hex _)
      · exact Or.inl h
    · exact Or.inr h

/-- The function `appendHex` appends hexadecimal digits. -/
theorem appendHex_chars (dst : GoString) (g : Nat) :
    ∀ c ∈ appendHex dst g, c ∈ dst ∨ isHexDigit c := by
  intro c hc
  unfold appendHex at hc
  split at hc
  · rcases List.mem_append.1 hc with h | h
    · exact Or.inl h
    · simp only [List.mem_singleton] at h
      rw [h]; right; unfold isHexDigit; omega
  · exact appendHex_go_chars _ _ _ c hc

/-- The print loop appends hexadecimal digits and colons. -/
theorem printLoop_chars (p : IP) (e0 e1 : Int) (f i : Nat) (b : GoString) :
    ∀ c ∈ printLoop p e0 e1 f i b, c ∈ b ∨ isHexDigit c ∨ c = 58 := by
  induction f generalizing i b with
  | zero => intro c hc; exact Or.inl hc
  | succ f ih =>
    have step : ∀ (b1 : GoString) (g : Nat), (∀ c ∈ b1, c ∈ b ∨ isHexDigit c ∨ c = 58) →
        ∀ c ∈ appendHex b1 g, c ∈ b ∨ isHexDigit c ∨ c = 58 := by
      intro b1 g h1 c hc
      rcases appendHex_chars b1 g c hc with h | h
      · exact h1 c h
      · exact Or.inr (Or.inl h)
    have colons : ∀ c ∈ b ++ [58, 58], c ∈ b ∨ isHexDigit c ∨ c = 58 := by
      intro c hc
      rcases List.mem_append.1 hc with h | h
      · exact Or.inl h
      · simp at h; exact Or.inr (Or.inr h)
    intro c hc
    simp only [printLoop] at hc
    split at hc
    · split at hc
      · split at hc
        · exact colons c hc
        · rcases ih _ _ c hc with h | h
          · exact step _ _ colons c h
          · exact Or.inr h
      · rcases ih _ _ c hc with h | h
        · refine step _ _ ?_ c h
          intro x hx
          split at hx
          · rcases List.mem_append.1 hx with h | h
            · exact Or.inl h
            · simp at h; exact Or.inr (Or.inr h)
          · exact Or.inl hx
        · exact Or.inr h
    · exact Or.inl hc

/-- The text of the print loop holds no dot and no percent sign. -/
theorem printLoop_not_mem (p : IP) (e0 e1 : Int) (f i : Nat) :
    37 ∉ printLoop p e0 e1 f i [] ∧ 46 ∉ printLoop p e0 e1 f i [] := by
  constructor
  · intro hm
    rcases printLoop_chars p e0 e1 f i [] _ hm with h | h | h
    · simp at h
    · unfold isHexDigit at h; omega
    · omega
  · intro hm
    rcases printLoop_chars p e0 e1 f i [] _ hm with h | h | h
    · simp at h
    · unfold isHexDigit at h; omega
    · omega

set_option maxHeartbeats 4000000 in
/-- The body of `parseIPv6` reads the text printed with `::` in place of the
zero groups `[2a, 2b)` back to the address; the text holds a colon. -/
theorem parseIPv6_printLoop_run (ip : IP) (hw : IP.wf ip) (a b : Nat) (hab : a + 2 ≤ b)
    (hb : b ≤ 8) (hz : ∀ k, 2 * a ≤ k → k < 2 * b → ip.getD k 0 = 0) :
    58 ∈ printLoop ip ((2 * a : Nat) : Int) ((2 * b : Nat) : Int) 8 0 [] ∧
    parseIPv6.addr (printLoop ip ((2 * a : Nat) : Int) ((2 * b : Nat) : Int) 8 0 []) = some ip := by
  have hg := group_lt _ hw
  have hs := fun l i j => store_group l _ hw i j
  have ha6 : a ≤ 6 := by omega
  have h0 : 2 * a ≤ 0 → 0 < 2 * b → ip.getD 0 0 = 0 := hz 0
  have h1 : 2 * a ≤ 1 → 1 < 2 * b → ip.getD 1 0 = 0 := hz 1
  have h2 : 2 * a ≤ 2 → 2 < 2 * b → ip.getD 2 0 = 0 := hz 2
  have h3 : 2 * a ≤ 3 → 3 < 2 * b → ip.getD 3 0 = 0 := hz 3
  have h4 : 2 * a ≤ 4 → 4 < 2 * b → ip.getD 4 0 = 0 := hz 4
  have h5 : 2 * a ≤ 5 → 5 < 2 * b → ip.getD 5 0 = 0 := hz 5
  have h6 : 2 * a ≤ 6 → 6 < 2 * b → ip.getD 6 0 = 0 := hz 6
  have h7 : 2 * a ≤ 7 → 7 < 2 * b → ip.getD 7 0 = 0 := hz 7
  have h8 : 2 * a ≤ 8 → 8 < 2 * b → ip.getD 8 0 = 0 := hz 8
  have h9 : 2 * a ≤ 9 → 9 < 2 * b → ip.getD 9 0 = 0 := hz 9
  have h10 : 2 * a ≤ 10 → 10 < 2 * b → ip.getD 10 0 = 0 := hz 10
  have h11 : 2 * a ≤ 11 → 11 < 2 * b → ip.getD 11 0 = 0 := hz 11
  have h12 : 2 * a ≤ 12 → 12 < 2 * b → ip.getD 12 0 = 0 := hz 12
  have h13 : 2 * a ≤ 13 → 13 < 2 * b → ip.getD 13 0 = 0 := hz 13
  have h14 : 2 * a ≤ 14 → 14 < 2 * b → ip.getD 14 0 = 0 := hz 14
  have h15 : 2 * a ≤ 15 → 15 < 2 * b → ip.getD 15 0 = 0 := hz 15
  clear hz
  interval_cases a <;> interval_cases b <;>
    first
    | omega
    | (simp only [printLoop, ↓reduceIte, appendHex_eq, Nat.cast_zero, Nat.cast_ofNat, Nat.cast_add,
        Nat.reduceMul, Int.reduceNeg, Int.reduceEq, Int.reduceAdd, Nat.reduceAdd, Nat.reduceLT,
        if_true, if_false, OfNat.zero_ne_ofNat, OfNat.ofNat_ne_zero, Nat.lt_irrefl, gt_iff_lt,
        Nat.ofNat_pos, List.nil_append, List.append_assoc, List.cons_append,
        List.singleton_append, Int.toNat_ofNat, Int.reduceToNat, ge_iff_le, Nat.reduceLeDiff,
        Nat.reduceEqDiff, le_refl]
       refine ⟨by simp, ?_⟩
       simp only [parseIPv6_nolead, parseIPv6_nolead_one, parseIPv6_lead, parseIPv6_only,
        parseIPv6.run, loop_step_colon, loop_step_last, loop_step_ellipsis,
        loop_step_ellipsis_end, hg, hs, hex_append_ne_nil, hex_append_head, hex_head_ne,
        hex_ne_nil, ne_eq, not_false_eq_true, Nat.reduceAdd, Nat.reduceLT]
       clear hg hs
       obtain ⟨x0, x1, x2, x3, x4, x5, x6, x7, x8, x9, x10, x11, x12, x13, x14, x15, rfl⟩ := length16 ip hw.1
       clear hw
       simp at h0 h1 h2 h3 h4 h5 h6 h7 h8 h9 h10 h11 h12 h13 h14 h15
       simp [expandEllipsis, *])

set_option maxHeartbeats 1000000 in
/-- The body of `parseIPv6` reads the text printed without `::` back to the
address; the text holds a colon. -/
theorem parseIPv6_printLoop_full (ip : IP) (hw : IP.wf ip) :
    58 ∈ printLoop ip (-1) (-1) 8 0 [] ∧
    parseIPv6.addr (printLoop ip (-1) (-1) 8 0 []) = some ip := by
  have hg := group_lt _ hw
  have hs := fun l i j => store_group l _ hw i j
  simp only [printLoop, ↓reduceIte, appendHex_eq, Nat.cast_zero, Nat.cast_ofNat, Nat.cast_add,
    Nat.reduceMul, Int.reduceNeg, Int.reduceEq, Int.reduceAdd, Nat.reduceAdd, Nat.reduceLT,
    if_true, if_false, OfNat.zero_ne_ofNat, OfNat.ofNat_ne_zero, Nat.lt_irrefl, gt_iff_lt,
    Nat.ofNat_pos, List.nil_append, List.append_assoc, List.cons_append,
    List.singleton_append, Int.toNat_ofNat, Int.reduceToNat, ge_iff_le, Nat.reduceLeDiff,
    Nat.reduceEqDiff, le_refl]
  refine ⟨by simp, ?_⟩
  simp only [parseIPv6_nolead, parseIPv6_nolead_one, parseIPv6_lead,
    parseIPv6_only, parseIPv6.run, loop_step_colon, loop_step_last, loop_step_ellipsis,
    loop_step_ellipsis_end, hg, hs, hex_append_ne_nil, hex_append_head, hex_head_ne,
    hex_ne_nil, ne_eq, not_false_eq_true, Nat.reduceAdd, Nat.reduceLT]
  clear hg hs
  obtain ⟨x0, x1, x2, x3, x4, x5, x6, x7, x8, x9, x10, x11, x12, x13, x14, x15, rfl⟩ := length16 ip hw.1
  simp

/-- Parsing the text printed with `::` in place of the zero groups `[2a, 2b)`
gives the address back. -/
theorem ParseIP_printLoop_run (ip : IP) (hw : IP.wf ip) (a b : Nat) (hab : a + 2 ≤ b)
    (hb : b ≤ 8) (hz : ∀ k, 2 * a ≤ k → k < 2 * b → ip.getD k 0 = 0) :
    ParseIP (printLoop ip ((2 * a : Nat) : Int) ((2 * b : Nat) : Int) 8 0 []) = some ip := by
  obtain ⟨h58, h⟩ := parseIPv6_printLoop_run ip hw a b hab hb hz
  obtain ⟨h37, h46⟩ := printLoop_not_mem ip ((2 * a : Nat) : Int) ((2 * b : Nat) : Int) 8 0
  exact ParseIP_of_addr _ ip h37 h46 h58 h

/-- Parsing the text printed without `::` gives the address back. -/
theorem ParseIP_printLoop_full (ip : IP) (hw : IP.wf ip) :
    ParseIP (printLoop ip (-1) (-1) 8 0 []) = some ip := by
  obtain ⟨h58, h⟩ := parseIPv6_printLoop_full ip hw
  obtain ⟨h37, h46⟩ := printLoop_not_mem ip (-1) (-1) 8 0
  exact ParseIP_of_addr _ ip h37 h46 h58 h

/-- The text of an address that is no IPv4 address is read back by `ParseIP`. -/
theorem ParseIP_String_v6 (ip : IP) (hw : IP.wf ip) (h4 : IP.To4 ip = none) :
    ParseIP (IP.String ip) = some ip := by
  have hl : ip.length ≠ 0 := by rw [hw.1]; norm_num
  unfold IP.String
  rw [if_neg hl, h4]
  simp only [hw.1, ne_eq, not_true_eq_false, if_false]
  rcases longestRun_good ip 8 0 (-1) (-1) rfl (Or.inl ⟨rfl, rfl⟩) with
    ⟨h1, h2⟩ | ⟨a, b, h1, h2, ha, hb, hab, hb16, hz⟩
  · rw [h1, h2]
    simpa using ParseIP_printLoop_full ip hw
  · rw [h1, h2]
    by_cases hc : (b : Int) - (a : Int) ≤ 2
    · rw [if_pos hc]
      simpa using ParseIP_printLoop_full ip hw
    · rw [if_neg hc, h1, h2]
      have ea : a = 2 * (a / 2) := by omega
      have eb : b = 2 * (b / 2) := by omega
      have := ParseIP_printLoop_run ip hw (a / 2) (b / 2) (by omega) (by omega)
        (fun k hk1 hk2 => hz k (by omega) (by omega))
      rw [← ea, ← eb] at this
      exact this

/-- The dotted-decimal text of an IPv4 address is read back by `ParseIP`. -/
theorem ParseIP_String_v4 (ip l : IP) (hw : IP.wf ip) (h4 : IP.To4 ip = some l) :
    ParseIP (IP.String ip) = some ip := by
  have hl : ip.length ≠ 0 := by rw [hw.1]; norm_num
  have hb := hw.2
  obtain ⟨x0, x1, x2, x3, x4, x5, x6, x7, x8, x9, x10, x11, x12, x13, x14, x15, rfl⟩ := length16 ip hw.1
  have b12 := hb x12 (by simp)
  have b13 := hb x13 (by simp)
  have b14 := hb x14 (by simp)
  have b15 := hb x15 (by simp)
  simp [IP.To4, isZeros] at h4
  obtain ⟨⟨⟨rfl, rfl, rfl, rfl, rfl, rfl, rfl, rfl, rfl, rfl⟩, rfl, rfl⟩, rfl⟩ := h4
  have hs : IP.String [0, 0, 0, 0, 0, 0, 0, 0, 0, 0, 255, 255, x12, x13, x14, x15]
      = uitoa x12 ++ 46 :: (uitoa x13 ++ 46 :: (uitoa x14 ++ 46 :: uitoa x15)) := by
    simp [IP.String, IP.To4, isZeros]
  rw [hs]
  have hp := ParseIP_ipv4 _ _ (parseIPv4_dotted x12 x13 x14 x15 b12 b13 b14 b15)
  simpa [IPv4, v4InV6Prefix] using hp

/-- Every address that `ParseIP` returns is read back from its canonical
string: `ParseIP (String ip) = ip`. -/
theorem ParseIP_String (ip : IP) (hw : IP.wf ip) : ParseIP (IP.String ip) = some ip := by
  cases h4 : IP.To4 ip with
  | none => exact ParseIP_String_v6 ip hw h4
  | some l => exact ParseIP_String_v4 ip l hw h4

/-! ## Bare IPv6 addresses -/

/-- The scan of `last` never returns less than a lower bound of its
accumulator and position. -/
theorem last_go_lower (b : Nat) (t : GoString) (j : Nat) (acc lo : Int) (h1 : lo ≤ acc)
    (h2 : lo ≤ (j : Int)) : lo ≤ last.go b t j acc := by
  induction t generalizing j acc with
  | nil => simpa [last.go] using h1
  | cons c u ih =>
    simp only [last.go]
    apply ih
    · split <;> omega
    · omega

/-- The index `last` returns is at least the position of any occurrence. -/
theorem last_go_ge (b : Nat) (pre post : GoString) (i : Nat) (acc : Int) :
    ((i + pre.length : Nat) : Int) ≤ last.go b (pre ++ b :: post) i acc := by
  induction pre generalizing i acc with
  | nil =>
    simp only [List.nil_append, last.go, if_true, List.length_nil, Nat.add_zero]
    exact last_go_lower b post (i + 1) i i (le_refl _) (by omega)
  | cons c t ih =>
    rw [List.cons_append]
    simp only [last.go, List.length_cons]
    have := ih (i + 1) (if c = b then (i : Int) else acc)
    have e : i + 1 + t.length = i + (t.length + 1) := by omega
    rw [e] at this
    exact this

/-- A string with two colons and no leading bracket is rejected by
`SplitHostPort` ("too many colons"), so `checkIP` returns the empty string on
it: this is the case of every IPv6 address written without brackets. -/
theorem checkIP_two_colons (pre mid post : GoString)
    (h0 : (pre ++ 58 :: (mid ++ 58 :: post)).head? ≠ some 91) :
    SplitHostPort (pre ++ 58 :: (mid ++ 58 :: post)) = none ∧
    checkIP (pre ++ 58 :: (mid ++ 58 :: post)) = [] := by
  have hsplit : SplitHostPort (pre ++ 58 :: (mid ++ 58 :: post)) = none := by
    have hl : ((pre.length + 1 + mid.length : Nat) : Int)
        ≤ last (pre ++ 58 :: (mid ++ 58 :: post)) 58 := by
      have := last_go_ge 58 (pre ++ 58 :: mid) post 0 (-1)
      simp only [List.append_assoc, List.cons_append, List.length_append, List.length_cons,
        Nat.zero_add] at this
      unfold last
      have e : pre.length + 1 + mid.length = pre.length + (mid.length + 1) := by omega
      rw [e]
      exact this
    have hm : 58 ∈ (pre ++ 58 :: (mid ++ 58 :: post)).take
        (last (pre ++ 58 :: (mid ++ 58 :: post)) 58).toNat := by
      have h1 : pre.length + 1 ≤ (last (pre ++ 58 :: (mid ++ 58 :: post)) 58).toNat := by omega
      have h2 : 58 ∈ (pre ++ 58 :: (mid ++ 58 :: post)).take (pre.length + 1) := by
        rw [List.take_append_eq_append_take]
        simp
      exact List.take_subset_take_left _ h1 h2
    unfold SplitHostPort
    have hneg : ¬ (last (pre ++ 58 :: (mid ++ 58 :: post)) 58 < 0) := by omega
    have hp := IndexByte_present 58 _ hm
    simp only [hneg, h0, if_false, ge_iff_le, hp, if_true]
  refine ⟨hsplit, ?_⟩
  have hc : IndexRune (pre ++ 58 :: (mid ++ 58 :: post)) 58 ≠ -1 := by
    have := IndexByte_present 58 (pre ++ 58 :: (mid ++ 58 :: post)) (by simp)
    unfold IndexRune
    omega
  unfold checkIP
  simp [hc, hsplit]

/-! ## The resolver on the three sources -/

/-- An index that `last` returns witnesses an occurrence of the byte. -/
theorem last_present (s : GoString) (b : Nat) (h : 0 ≤ last s b) : b ∈ s := by
  by_contra hb
  have := last_go_absent b s 0 (-1) hb
  unfold last at h
  omega

/-- Validation of a host-and-port string that `SplitHostPort` splits and
whose host `ParseIP` accepts: the canonical string of the host. -/
theorem checkIP_hostport (raw host port : GoString) (ip : IP)
    (hs : SplitHostPort raw = some (host, port)) (hp : ParseIP host = some ip) :
    checkIP raw = IP.String ip := by
  have hl : 0 ≤ last raw 58 := by
    unfold SplitHostPort at hs
    by_contra hneg
    simp only [not_le] at hneg
    simp [hneg] at hs
  have hc : IndexRune raw 58 ≠ -1 := by
    have := IndexByte_present 58 raw (last_present raw 58 hl)
    unfold IndexRune
    omega
  unfold checkIP
  simp [hc, hs, hp]

/-- C1: a request whose `X-Forwarded-For` value is `a ++ ", " ++ rest`, with
`a` a valid dotted-decimal IPv4 address, resolves to the canonical string of
`a`, whatever `rest`, the `X-Real-IP` header and `RemoteAddr` are. -/
theorem realIp_forwarded_ipv4 (r : Request) (a rest : GoString) (ip : IP)
    (ha : parseIPv4 a = some ip)
    (hx : r.Header.Get xForwardedFor = a ++ str ", " ++ rest) :
    realIp r = .ok (IP.String ip) := by
  obtain ⟨h1, -⟩ := parseIPv4_chars a ip ha
  have hne : r.Header.Get xForwardedFor ≠ [] := by
    rw [hx]
    have := parseIPv4_ne_nil a ip ha
    simp [this]
  have hf : firstElement (r.Header.Get xForwardedFor) = a := by
    rw [hx, str_sep]
    simpa using firstElement_append_sep a rest
      (isDigitOrDot_not a h1 44 (by unfold isDigitOrDot; omega))
  rw [realIp_eq, if_pos hne, hf, checkIP_ipv4 a ip ha]

/-- Witness of C1: `X-Forwarded-For: 203.0.113.5, 70.41.3.18` resolves to
`203.0.113.5`. -/
theorem realIp_forwarded_ipv4_witness :
    realIp (requestOf [str "203.0.113.5, 70.41.3.18"] [str "198.51.100.7"] (str "192.0.2.1:4321"))
      = .ok (str "203.0.113.5") :=
  realIp_forwarded_ipv4 _ (str "203.0.113.5") (str "70.41.3.18") (IPv4 203 0 113 5)
    (by decide) (by decide)

/-- C2 as stated fails: with `X-Forwarded-For: not-an-ip` and
`X-Real-IP: 203.0.113.5` the resolver returns the empty string, not the
real-IP address. -/
theorem realIp_invalid_forwarded_counterexample :
    ¬ ∀ (r : Request) (ip : IP),
        r.Header.Get xForwardedFor ≠ [] →
        checkIP (firstElement (r.Header.Get xForwardedFor)) = [] →
        ParseIP (r.Header.Get xRealIP) = some ip →
        realIp r = .ok (IP.String ip) := by
  intro h
  have h1 := h (requestOf [str "not-an-ip"] [str "203.0.113.5"] []) (IPv4 203 0 113 5)
    (by decide) (by decide) (by decide)
  revert h1
  decide

/-- C2, amended: a request whose `X-Forwarded-For` value is non-empty and whose
first element fails validation resolves to the empty string, whatever the
`X-Real-IP` header and `RemoteAddr` are. -/
theorem realIp_invalid_forwarded (r : Request)
    (hne : r.Header.Get xForwardedFor ≠ [])
    (hbad : checkIP (firstElement (r.Header.Get xForwardedFor)) = []) :
    realIp r = .ok [] := by
  rw [realIp_eq, if_pos hne, hbad]

/-- Witness of the amended C2. -/
theorem realIp_invalid_forwarded_witness :
    realIp (requestOf [str "not-an-ip"] [str "203.0.113.5"] (str "192.0.2.1:4321")) = .ok [] :=
  realIp_invalid_forwarded _ (by decide) (by decide)

/-- C3 as stated fails: with `X-Forwarded-For: not-an-ip`, no `X-Real-IP` and
`RemoteAddr` `192.0.2.1:4321` the resolver returns the empty string, not
`192.0.2.1`. -/
theorem realIp_remote_counterexample :
    ¬ ∀ (r : Request) (host port : GoString) (ip : IP),
        checkIP (firstElement (r.Header.Get xForwardedFor)) = [] →
        checkIP (r.Header.Get xRealIP) = [] →
        SplitHostPort r.RemoteAddr = some (host, port) →
        ParseIP host = some ip →
        realIp r = .ok (IP.String ip) := by
  intro h
  have h1 := h (requestOf [str "not-an-ip"] [] (str "192.0.2.1:4321")) (str "192.0.2.1")
    (str "4321") (IPv4 192 0 2 1) (by decide) (by decide) (by decide) (by decide)
  revert h1
  decide

/-- C3, amended: a request in which both headers are absent or empty and whose
`RemoteAddr` is a valid `ip:port` string resolves to the canonical form of the
ip of `RemoteAddr`. -/
theorem realIp_remote (r : Request) (host port : GoString) (ip : IP)
    (hx : r.Header.Get xForwardedFor = []) (hr : r.Header.Get xRealIP = [])
    (hs : SplitHostPort r.RemoteAddr = some (host, port)) (hp : ParseIP host = some ip) :
    realIp r = .ok (IP.String ip) := by
  rw [realIp_eq]
  simp [hx, hr, checkIP_hostport _ host port ip hs hp]

/-- Witness of the amended C3, with an IPv6 connection address. -/
theorem realIp_remote_witness :
    realIp (requestOf [] [] (str "[2001:db8::1]:4321")) = .ok (str "2001:db8::1") :=
  realIp_remote _ (str "2001:db8::1") (str "4321")
    [0x20, 0x01, 0x0d, 0xb8, 0, 0, 0, 0, 0, 0, 0, 0, 0, 0, 0, 1]
    (by decide) (by decide) (by decide) (by decide)

/-- C4 at its own example: `::1` is a valid IPv6 address with canonical string
`::1`, yet `X-Forwarded-For: ::1, 10.0.0.1` resolves to the empty string,
because `checkIP` sends every string with a colon through `SplitHostPort`, which
rejects a bare IPv6 address. -/
theorem realIp_forwarded_ipv6_fails :
    ParseIP (str "::1") = some [0, 0, 0, 0, 0, 0, 0, 0, 0, 0, 0, 0, 0, 0, 0, 1] ∧
    IP.String [0, 0, 0, 0, 0, 0, 0, 0, 0, 0, 0, 0, 0, 0, 0, 1] = str "::1" ∧
    firstElement (str "::1, 10.0.0.1") = str "::1" ∧
    SplitHostPort (str "::1") = none ∧
    checkIP (str "::1") = [] ∧
    realIp (requestOf [str "::1, 10.0.0.1"] [] []) = .ok [] ∧
    checkIP (str "[::1]:80") = str "::1" := by
  decide

/-- C5: a request with no (or an empty) `X-Forwarded-For` header and an
`X-Real-IP` header holding a valid dotted-decimal IPv4 address `a` resolves to
the canonical string of `a`, whatever `RemoteAddr` is. -/
theorem realIp_real_ip_ipv4 (r : Request) (a : GoString) (ip : IP)
    (hx : r.Header.Get xForwardedFor = []) (hr : r.Header.Get xRealIP = a)
    (ha : parseIPv4 a = some ip) :
    realIp r = .ok (IP.String ip) := by
  rw [realIp_eq]
  simp [hx, hr, parseIPv4_ne_nil a ip ha, checkIP_ipv4 a ip ha]

/-- Witness of C5: `X-Real-IP: 203.0.113.5` alone resolves to `203.0.113.5`. -/
theorem realIp_real_ip_ipv4_witness :
    realIp (requestOf [] [str "203.0.113.5"] (str "192.0.2.1:4321")) = .ok (str "203.0.113.5") :=
  realIp_real_ip_ipv4 _ (str "203.0.113.5") (IPv4 203 0 113 5) (by decide) (by decide)
    (by decide)

/-- C6: a request with no forwarding headers and `RemoteAddr` of the form
`a ++ ":" ++ port`, with `a` a valid dotted-decimal IPv4 address and `port` a
string of decimal digits, resolves to the canonical string of `a`, the port
removed. -/
theorem realIp_remote_ipv4 (r : Request) (a port : GoString) (ip : IP)
    (hx : r.Header.Get xForwardedFor = []) (hr : r.Header.Get xRealIP = [])
    (hra : r.RemoteAddr = a ++ str ":" ++ port)
    (ha : parseIPv4 a = some ip) (hport : ∀ c ∈ port, 48 ≤ c ∧ c ≤ 57) :
    realIp r = .ok (IP.String ip) := by
  have hs : str ":" = [58] := by decide
  have hp : 58 ∉ port ∧ 91 ∉ port ∧ 93 ∉ port := by
    refine ⟨fun h => ?_, fun h => ?_, fun h => ?_⟩ <;> have := hport _ h <;> omega
  rw [realIp_eq]
  simp only [hx, hr, ne_eq, not_true_eq_false, if_false, hra, hs, List.append_assoc,
    List.singleton_append]
  rw [checkIP_ipv4_port a port ip ha hp]

/-- Witness of C6: `RemoteAddr` `192.0.2.1:4321` resolves to `192.0.2.1`. -/
theorem realIp_remote_ipv4_witness :
    realIp (requestOf [] [] (str "192.0.2.1:4321")) = .ok (str "192.0.2.1") :=
  realIp_remote_ipv4 _ (str "192.0.2.1") (str "4321") (IPv4 192 0 2 1) (by decide) (by decide)
    (by decide) (by decide) (by decide)

/-- What `checkIP` returns is empty or the canonical string of an address. -/
theorem checkIP_canonical (raw : GoString) :
    checkIP raw = [] ∨ ∃ ip, ParseIP (checkIP raw) = some ip ∧ IP.String ip = checkIP raw := by
  unfold checkIP
  simp only
  split
  · left; rfl
  · rename_i host hh
    split
    · left; rfl
    · rename_i ip hp
      right
      exact ⟨ip, ParseIP_String ip (ParseIP_wf host ip hp), rfl⟩

/-- C7: for every request `realIp` returns without panic, and what it returns
is the empty string or a string that `ParseIP` accepts and that is its own
canonical form; a request with `X-Forwarded-For: not-an-ip` resolves to the
empty string whatever else it holds. -/
theorem realIp_total (r : Request) :
    (∃ s, realIp r = .ok s ∧
      (s = [] ∨ ∃ ip, ParseIP s = some ip ∧ IP.String ip = s)) ∧
    (r.Header.Get xForwardedFor = str "not-an-ip" → realIp r = .ok []) := by
  constructor
  · rw [realIp_eq]
    refine ⟨_, rfl, ?_⟩
    split
    · exact checkIP_canonical _
    · split
      · exact checkIP_canonical _
      · exact checkIP_canonical _
  · intro h
    rw [realIp_eq, h, if_pos (by decide)]
    decide

/-- Witness of C7: the resolver on `X-Forwarded-For: not-an-ip` with a valid
`X-Real-IP` and a valid connection address. -/
theorem realIp_total_witness :
    realIp (requestOf [str "not-an-ip"] [str "203.0.113.5"] (str "192.0.2.1:4321")) = .ok [] :=
  (realIp_total _).2 (by decide)

/-! ## The middleware and the accessors -/

/-- A key under which nothing was stored has the nil value. -/
theorem Context_Value_not_stored (ctx : Context) (key : Key) (h : ctx.stored key = false) :
    ctx.Value key = none := by
  induction ctx with
  | background => rfl
  | withValue parent k v ih =>
    simp only [Context.stored, Bool.or_eq_false_iff, decide_eq_false_iff_not] at h
    simp [Context.Value, h.1, ih h.2]

/-- C8: the middleware calls the downstream handler with a request on which
`RealIpFromRequest` and `RealIpFromContext` both return exactly `realIp(r)`
(the empty string included); every value stored in the context of `r` under
another key is still retrieved unchanged, and the header and the connection
address are those of `r`. -/
theorem RealIp_passes_resolved {ω ρ : Type} (next : Handler ω ρ) (w : ω) (r : Request) :
    ∃ (ip : GoString) (r1 : Request),
      realIp r = .ok ip ∧
      RealIp next w r = next w r1 ∧
      RealIpFromRequest r1 = .ok ip ∧
      RealIpFromContext r1.Context = .ok ip ∧
      (∀ k : Key, k ≠ realIpKey → r1.Context.Value k = r.Context.Value k) ∧
      r1.Header = r.Header ∧ r1.RemoteAddr = r.RemoteAddr := by
  obtain ⟨ip, hip⟩ : ∃ ip, realIp r = .ok ip := ⟨_, realIp_eq r⟩
  refine ⟨ip, r.WithContext (.withValue r.Context realIpKey (some (.string ip))), hip,
    ?_, ?_, ?_, ?_, rfl, rfl⟩
  · simp only [RealIp, hip]
    rfl
  · simp [RealIpFromRequest, Request.Context, Request.WithContext, Context.Value, assertString]
  · simp [RealIpFromContext, Request.Context, Request.WithContext, Context.Value, assertString]
  · intro k hk
    simp [Request.Context, Request.WithContext, Context.Value, Ne.symm hk]

/-- C9: on a context in which no value has been stored under the real-IP key
both accessors panic (the type assertion fails); on a context whose value
under the key is a string, as the middleware stores it, both return that
string. -/
theorem accessors_panic_unless_stored (r : Request) (ctx : Context) (hr : r.Context = ctx) :
    (ctx.stored realIpKey = false →
      RealIpFromContext ctx = .error .typeAssertion ∧
      RealIpFromRequest r = .error .typeAssertion) ∧
    (∀ s : GoString, ctx.Value realIpKey = some (.string s) →
      RealIpFromContext ctx = .ok s ∧ RealIpFromRequest r = .ok s) ∧
    (∀ (parent : Context) (s : GoString),
      ctx = .withValue parent realIpKey (some (.string s)) →
      RealIpFromContext ctx = .ok s ∧ RealIpFromRequest r = .ok s) := by
  subst hr
  refine ⟨fun h => ?_, fun s h => ?_, fun parent s h => ?_⟩
  · simp [RealIpFromContext, RealIpFromRequest, Context_Value_not_stored _ _ h, assertString]
  · simp [RealIpFromContext, RealIpFromRequest, h, assertString]
  · simp [RealIpFromContext, RealIpFromRequest, h, Context.Value, assertString]

/-- Witness of C9: a request without context, and a context holding another
package's key only. -/
theorem accessors_panic_unless_stored_witness :
    RealIpFromContext (.withValue .background (.foreign 27) (some (.string (str "203.0.113.5"))))
      = .error .typeAssertion ∧
    RealIpFromRequest (requestOf [] [] []) = .error .typeAssertion ∧
    RealIpFromContext (.withValue .background realIpKey (some (.string (str "203.0.113.5"))))
      = .ok (str "203.0.113.5") :=
  ⟨((accessors_panic_unless_stored
      { requestOf [] [] [] with
        ctx := some (.withValue .background (.foreign 27) (some (.string (str "203.0.113.5")))) }
      _ rfl).1 (by decide)).1,
   ((accessors_panic_unless_stored (requestOf [] [] []) _ rfl).1 (by decide)).2,
   ((accessors_panic_unless_stored
      { requestOf [] [] [] with
        ctx := some (.withValue .background realIpKey (some (.string (str "203.0.113.5")))) }
      _ rfl).2.1 _ (by decide)).1⟩

/-- C10: `realIp` is a function of the `X-Forwarded-For` value, the `X-Real-IP`
value and `RemoteAddr` alone: two requests that agree on these three strings
resolve to the same value. -/
theorem realIp_deterministic (r1 r2 : Request)
    (hx : r1.Header.Get xForwardedFor = r2.Header.Get xForwardedFor)
    (hr : r1.Header.Get xRealIP = r2.Header.Get xRealIP)
    (ha : r1.RemoteAddr = r2.RemoteAddr) :
    realIp r1 = realIp r2 := by
  unfold realIp
  rw [hx, hr, ha]

/-- Witness of C10: two requests that differ in another header and in their
context. -/
theorem realIp_deterministic_witness :
    realIp (requestOf [str "203.0.113.5, 70.41.3.18"] [str "198.51.100.7"] (str "192.0.2.1:4321"))
      = realIp
        { Header := fun k =>
            if k = str "X-Forwarded-For" then [str "203.0.113.5, 70.41.3.18", str "10.0.0.1"]
            else if k = str "X-Real-Ip" then [str "198.51.100.7"]
            else if k = str "User-Agent" then [str "curl"] else []
          RemoteAddr := str "192.0.2.1:4321"
          ctx := some (.withValue .background (.foreign 1) none) } :=
  realIp_deterministic _ _ (by decide) (by decide) (by decide)

/-! ## The order of the sources -/

/-- C11: the sources are consulted strictly in the order `X-Forwarded-For`,
`X-Real-IP`, `RemoteAddr`: two requests with the same non-empty
`X-Forwarded-For` value resolve to the same address whatever their `X-Real-IP`
and `RemoteAddr` are, and two requests with an empty `X-Forwarded-For` and the
same non-empty `X-Real-IP` value resolve to the same address whatever their
`RemoteAddr` is. -/
theorem realIp_priority (r1 r2 : Request) :
    (r1.Header.Get xForwardedFor ≠ [] →
      r1.Header.Get xForwardedFor = r2.Header.Get xForwardedFor →
      realIp r1 = realIp r2) ∧
    (r1.Header.Get xForwardedFor = [] → r2.Header.Get xForwardedFor = [] →
      r1.Header.Get xRealIP ≠ [] →
      r1.Header.Get xRealIP = r2.Header.Get xRealIP →
      realIp r1 = realIp r2) := by
  constructor
  · intro hne hx
    have hne2 : r2.Header.Get xForwardedFor ≠ [] := hx ▸ hne
    rw [realIp_eq, realIp_eq, if_pos hne, if_pos hne2, hx]
  · intro h1 h2 hne hr
    have hne2 : r2.Header.Get xRealIP ≠ [] := hr ▸ hne
    rw [realIp_eq, realIp_eq]
    simp only [h1, h2, ne_eq, not_true_eq_false, if_false, hne, hne2, not_false_eq_true,
      if_true, hr]

/-- Witness of C11: requests that differ in the sources of lower priority. -/
theorem realIp_priority_witness :
    realIp (requestOf [str "203.0.113.5, 70.41.3.18"] [str "198.51.100.7"] (str "192.0.2.1:4321"))
      = realIp (requestOf [str "203.0.113.5, 70.41.3.18"] [] (str "[2001:db8::1]:80")) ∧
    realIp (requestOf [] [str "198.51.100.7"] (str "192.0.2.1:4321"))
      = realIp (requestOf [] [str "198.51.100.7"] (str "not-an-address")) :=
  ⟨(realIp_priority _ _).1 (by decide) (by decide),
   (realIp_priority _ _).2 (by decide) (by decide) (by decide) (by decide)⟩

/-! ## The separator of the forwarded-for list -/

/-- A true `HasPrefix` gives a prefix. -/
theorem HasPrefix_isPrefix (s p : GoString) (h : HasPrefix s p = true) : p <+: s := by
  induction p generalizing s with
  | nil => exact List.nil_prefix
  | cons c p ih =>
    cases s with
    | nil => simp [HasPrefix] at h
    | cons b s =>
      simp only [HasPrefix, Bool.and_eq_true, decide_eq_true_eq] at h
      rw [h.1]
      exact (List.prefix_cons_inj c).2 (ih s h.2)

/-- A value without the separator `", "` is its own first element. -/
theorem firstElement_no_sep (s : GoString) (h : ¬ [44, 32] <:+: s) : firstElement s = s := by
  induction s with
  | nil => rfl
  | cons c t ih =>
    have hp : ¬ HasPrefix (c :: t) [44, 32] = true :=
      fun hp => h (HasPrefix_isPrefix _ _ hp).isInfix
    have ht : ¬ [44, 32] <:+: t := fun hi => h (hi.trans (List.suffix_cons c t).isInfix)
    simp [firstElement, hp, ih ht]

/-- A value that holds the separator `", "` holds a space. -/
theorem sep_infix_space (s : GoString) (h : [44, 32] <:+: s) : 32 ∈ s := by
  obtain ⟨l1, l2, rfl⟩ := h
  simp

/-- Two dotted-decimal addresses joined by a bare comma do not validate. -/
theorem checkIP_bare_comma (a b : GoString) (ipa ipb : IP) (ha : parseIPv4 a = some ipa)
    (hb : parseIPv4 b = some ipb) : checkIP (a ++ 44 :: b) = [] := by
  obtain ⟨ca, da⟩ := parseIPv4_chars a ipa ha
  obtain ⟨cb, -⟩ := parseIPv4_chars b ipb hb
  have h58 : 58 ∉ a ++ 44 :: b := by
    intro hm
    simp only [List.mem_append, List.mem_cons] at hm
    rcases hm with hm | hm | hm
    · exact isDigitOrDot_not a ca 58 (by unfold isDigitOrDot; omega) hm
    · omega
    · exact isDigitOrDot_not b cb 58 (by unfold isDigitOrDot; omega) hm
  have h37 : 37 ∉ a ++ 44 :: b := by
    intro hm
    simp only [List.mem_append, List.mem_cons] at hm
    rcases hm with hm | hm | hm
    · exact isDigitOrDot_not a ca 37 (by unfold isDigitOrDot; omega) hm
    · omega
    · exact isDigitOrDot_not b cb 37 (by unfold isDigitOrDot; omega) hm
  have hc : IndexRune (a ++ 44 :: b) 58 = -1 := IndexByte_absent 58 _ h58
  have hp : ParseIP (a ++ 44 :: b) = none := by
    unfold ParseIP ParseAddr
    rw [ParseAddr_scan_dot _ _ h58 h37 (by simp [da])]
    cases hq : parseIPv4 (a ++ 44 :: b) with
    | none => rfl
    | some ip =>
      exfalso
      have := (parseIPv4_chars _ ip hq).1 44 (by simp)
      unfold isDigitOrDot at this
      omega
  unfold checkIP
  simp [hc, hp]

/-- C13 as stated fails at the empty value: with an `X-Forwarded-For` header
whose value is the empty string (no `", "` in it) and `X-Real-IP: 203.0.113.5`,
`realIp` does not validate the forwarded-for value (that would give the empty
string) but goes on to `X-Real-IP` and returns `203.0.113.5`. -/
theorem realIp_no_sep_counterexample :
    ¬ ∀ r : Request, ¬ str ", " <:+: r.Header.Get xForwardedFor →
        realIp r = .ok (checkIP (r.Header.Get xForwardedFor)) := by
  intro h
  have h1 := h (requestOf [[]] [str "203.0.113.5"] (str "192.0.2.1:4321")) (by
    intro hi
    have := sep_infix_space _ (str_sep ▸ hi)
    revert this
    decide)
  revert h1
  decide

/-- C13, amended: the separator of the forwarded-for list is exactly comma
followed by space: for every non-empty `X-Forwarded-For` value without `", "`
`realIp` validates the whole value, so a value made of two valid IPv4 addresses
joined by a bare comma resolves to the empty string, whatever `X-Real-IP` and
`RemoteAddr` are. -/
theorem realIp_no_sep (r : Request) (hne : r.Header.Get xForwardedFor ≠ []) :
    (¬ str ", " <:+: r.Header.Get xForwardedFor →
      realIp r = .ok (checkIP (r.Header.Get xForwardedFor))) ∧
    (∀ (a b : GoString) (ipa ipb : IP), parseIPv4 a = some ipa → parseIPv4 b = some ipb →
      r.Header.Get xForwardedFor = a ++ str "," ++ b →
      ¬ str ", " <:+: r.Header.Get xForwardedFor ∧ realIp r = .ok []) := by
  have key : ¬ str ", " <:+: r.Header.Get xForwardedFor →
      realIp r = .ok (checkIP (r.Header.Get xForwardedFor)) := by
    intro hs
    rw [str_sep] at hs
    rw [realIp_eq, if_pos hne, firstElement_no_sep _ hs]
  refine ⟨key, ?_⟩
  intro a b ipa ipb ha hb hx
  have hcomma : str "," = [44] := by decide
  have hx2 : r.Header.Get xForwardedFor = a ++ 44 :: b := by
    rw [hx, hcomma]; simp
  have hns : ¬ str ", " <:+: r.Header.Get xForwardedFor := by
    intro hi
    have hm := sep_infix_space _ (str_sep ▸ hi)
    rw [hx2] at hm
    simp only [List.mem_append, List.mem_cons] at hm
    rcases hm with hm | hm | hm
    · exact isDigitOrDot_not a (parseIPv4_chars a ipa ha).1 32 (by unfold isDigitOrDot; omega) hm
    · omega
    · exact isDigitOrDot_not b (parseIPv4_chars b ipb hb).1 32 (by unfold isDigitOrDot; omega) hm
  refine ⟨hns, ?_⟩
  rw [key hns, hx2, checkIP_bare_comma a b ipa ipb ha hb]

/-- Witness of the amended C13: `X-Forwarded-For: 203.0.113.5,70.41.3.18`
resolves to the empty string. -/
theorem realIp_no_sep_witness :
    realIp (requestOf [str "203.0.113.5,70.41.3.18"] [str "198.51.100.7"] (str "192.0.2.1:4321"))
      = .ok [] :=
  ((realIp_no_sep _ (by decide)).2 (str "203.0.113.5") (str "70.41.3.18") (IPv4 203 0 113 5)
    (IPv4 70 41 3 18) (by decide) (by decide) (by decide)).2

/-! ## The port is not validated -/

/-- C15: `checkIP` does not validate the port: for a valid dotted-decimal IPv4
address `a` and any string `p` without `':'`, `'['` and `']'` (the empty string
and non-numeric text included),
`checkIP (a ++ ":" ++ p) = checkIP a`, the canonical string of `a`. -/
theorem checkIP_port_unchecked (a p : GoString) (ip : IP) (ha : parseIPv4 a = some ip)
    (hp : 58 ∉ p ∧ 91 ∉ p ∧ 93 ∉ p) :
    checkIP (a ++ str ":" ++ p) = checkIP a ∧ checkIP a = IP.String ip := by
  have hs : str ":" = [58] := by decide
  rw [hs, List.append_assoc, List.singleton_append, checkIP_ipv4_port a p ip ha hp,
    checkIP_ipv4 a ip ha]
  exact ⟨rfl, rfl⟩

/-- Witness of C15: a service name and an empty port after `192.0.2.1`. -/
theorem checkIP_port_unchecked_witness :
    (checkIP (str "192.0.2.1" ++ str ":" ++ str "http") = checkIP (str "192.0.2.1") ∧
      checkIP (str "192.0.2.1") = str "192.0.2.1") ∧
    (checkIP (str "192.0.2.1" ++ str ":" ++ []) = checkIP (str "192.0.2.1") ∧
      checkIP (str "192.0.2.1") = str "192.0.2.1") :=
  ⟨checkIP_port_unchecked (str "192.0.2.1") (str "http") (IPv4 192 0 2 1) (by decide)
      (by decide),
   checkIP_port_unchecked (str "192.0.2.1") [] (IPv4 192 0 2 1) (by decide) (by decide)⟩

/-! ## The text that the parsers accept -/

/-- The hex number loop of `parseIPv6` consumes hexadecimal digits. -/
theorem hex_loop_ok (s : GoString) (acc off m c : Nat)
    (h : parseIPv6.hex s acc off = some (m, c)) :
    ∃ pre rest, s = pre ++ rest ∧ c = off + pre.length ∧ (∀ x ∈ pre, isHexDigit x) := by
  induction s generalizing acc off with
  | nil =>
    simp only [parseIPv6.hex, Option.some.injEq, Prod.mk.injEq] at h
    exact ⟨[], [], rfl, by simp [h.2], by simp⟩
  | cons x t ih =>
    have step : ∀ n1, isHexDigit x →
        (if off > 3 then none else if n1 > 0xFFFF then none else parseIPv6.hex t n1 (off + 1))
          = some (m, c) →
        ∃ pre rest, x :: t = pre ++ rest ∧ c = off + pre.length ∧ (∀ y ∈ pre, isHexDigit y) := by
      intro n1 hx hr
      split at hr
      · simp at hr
      · split at hr
        · simp at hr
        · obtain ⟨pre, rest, h1, h2, h3⟩ := ih _ _ hr
          refine ⟨x :: pre, rest, by simp [h1], by simp [h2]; omega, ?_⟩
          intro y hy
          rcases List.mem_cons.1 hy with rfl | hy
          · exact hx
          · exact h3 y hy
    simp only [parseIPv6.hex] at h
    by_cases h1 : 48 ≤ x ∧ x ≤ 57
    · rw [if_pos h1] at h
      exact step _ (Or.inl h1) h
    · rw [if_neg h1] at h
      by_cases h2 : 97 ≤ x ∧ x ≤ 102
      · rw [if_pos h2] at h
        exact step _ (Or.inr (Or.inl h2)) h
      · rw [if_neg h2] at h
        by_cases h3 : 65 ≤ x ∧ x ≤ 70
        · rw [if_pos h3] at h
          exact step _ (Or.inr (Or.inr h3)) h
        · rw [if_neg h3] at h
          simp only [Option.some.injEq, Prod.mk.injEq] at h
          exact ⟨[], x :: t, rfl, by simp [h.2], by simp⟩

/-- A hex number of `parseIPv6` with at least one digit splits the string into
the digits consumed and the rest. -/
theorem hex_ok (s : GoString) (m c : Nat) (h : parseIPv6.hex s 0 0 = some (m, c))
    (hc : c ≠ 0) : ∃ pre, s = pre ++ s.drop c ∧ pre ≠ [] ∧ ∀ x ∈ pre, isHexDigit x := by
  obtain ⟨pre, rest, h1, h2, h3⟩ := hex_loop_ok s 0 0 m c h
  refine ⟨pre, ?_, ?_, h3⟩
  · subst h1
    have : c = pre.length := by omega
    subst this
    simp
  · intro hp; subst hp; simp at h2; omega

/-- A string that starts with a colon is that colon and the rest. -/
theorem head_colon (s : GoString) (h : s.head? = some 58) : s = 58 :: s.drop 1 := by
  cases s with
  | nil => simp at h
  | cons a t => simp at h; simp [h]

/-- Dotted-decimal text is made of address bytes. -/
theorem isDigitOrDot_addr (x : Nat) (h : isDigitOrDot x) : isAddrByte x := by
  rcases h with h | h
  · exact Or.inl (Or.inl h)
  · exact Or.inr (Or.inr h)

set_option maxHeartbeats 1000000 in
/-- What the main loop of `parseIPv6` consumes: address bytes only, at least
one colon for every group stored but the last, and two colons if it finds an
ellipsis. -/
theorem parseIPv6_loop_shape (f : Nat) (st st1 : V6State)
    (h : parseIPv6.loop f st = some st1) :
    ∃ pre, st.s = pre ++ st1.s ∧ (∀ c ∈ pre, isAddrByte c) ∧
      st1.i ≤ st.i + 2 * pre.count 58 + 4 ∧
      (st1.ellipsis ≠ st.ellipsis → 2 ≤ pre.count 58) := by
  induction f generalizing st with
  | zero =>
    simp only [parseIPv6.loop, Option.some.injEq] at h
    subst h
    exact ⟨[], rfl, by simp, by simp, by simp⟩
  | succ f ih =>
    simp only [parseIPv6.loop] at h
    split at h
    · simp only [Option.some.injEq] at h
      subst h
      exact ⟨[], rfl, by simp, by simp, by simp⟩
    · cases hx : parseIPv6.hex st.s 0 0 with
      | none => simp [hx] at h
      | some nc =>
        obtain ⟨n, c⟩ := nc
        simp only [hx] at h
        split at h
        · simp at h
        · rename_i hc0
          obtain ⟨hp, hs, hne, hhex⟩ := hex_ok _ _ _ hx hc0
          have hhexa : ∀ x ∈ hp, isAddrByte x := fun x hm => Or.inl (hhex x hm)
          have hcnt : ∀ (l : GoString), (hp ++ l).count 58 = hp.count 58 + l.count 58 :=
            fun l => List.count_append _ _ _
          split at h
          · split at h
            · simp at h
            · split at h
              · simp at h
              · cases h4 : parseIPv4Fields st.s with
                | none => simp [h4] at h
                | some ip4 =>
                  simp only [h4, Option.some.injEq] at h
                  subst h
                  refine ⟨st.s, by simp, ?_, by simp, by simp⟩
                  intro x hm
                  exact isDigitOrDot_addr x ((parseIPv4Fields_chars _ _ h4).1 x hm)
          · generalize hs1 : st.s.drop c = s1 at h hs
            split at h
            · simp only [Option.some.injEq] at h
              subst h
              exact ⟨hp, hs, hhexa, by simp; omega, by simp⟩
            · split at h
              · simp at h
              · rename_i hcol
                simp only [ne_eq, not_or, not_not] at hcol
                have e1 := head_colon s1 hcol.1
                generalize hs2 : s1.drop 1 = s2 at h e1
                split at h
                · rename_i hcol2
                  have e2 := head_colon s2 hcol2
                  generalize hs3 : s2.drop 1 = s3 at h e2
                  have hall : ∀ x ∈ hp ++ [58, 58], isAddrByte x := by
                    intro x hm
                    rcases List.mem_append.1 hm with hm | hm
                    · exact hhexa x hm
                    · simp at hm; exact Or.inr (Or.inl hm)
                  split at h
                  · simp at h
                  · split at h
                    · simp only [Option.some.injEq] at h
                      subst h
                      refine ⟨hp ++ [58, 58], by rw [hs, e1, e2]; simp, hall, ?_, ?_⟩
                      · rw [hcnt]
                        simp only [List.count_cons_self, List.count_nil]
                        omega
                      · intro _
                        rw [hcnt]; simp
                    · obtain ⟨pre, q1, q2, q3, q4⟩ := ih _ h
                      simp only at q1 q3 q4
                      refine ⟨hp ++ [58, 58] ++ pre, by rw [hs, e1, e2, q1]; simp, ?_, ?_, ?_⟩
                      · intro x hm
                        rcases List.mem_append.1 hm with hm | hm
                        · exact hall x hm
                        · exact q2 x hm
                      · rw [List.append_assoc, hcnt]
                        simp only [List.cons_append, List.nil_append, List.count_cons_self]
                        omega
                      · intro _
                        rw [List.append_assoc, hcnt]
                        simp only [List.cons_append, List.nil_append, List.count_cons_self]
                        omega
                · obtain ⟨pre, q1, q2, q3, q4⟩ := ih _ h
                  simp only at q1 q3 q4
                  refine ⟨hp ++ [58] ++ pre, by rw [hs, e1, q1]; simp, ?_, ?_, ?_⟩
                  · intro x hm
                    rcases List.mem_append.1 hm with hm | hm
                    · rcases List.mem_append.1 hm with hm | hm
                      · exact hhexa x hm
                      · simp at hm; exact Or.inr (Or.inl hm)
                    · exact q2 x hm
                  · rw [List.append_assoc, hcnt]
                    simp only [List.cons_append, List.nil_append, List.count_cons_self]
                    omega
                  · intro hne2
                    rw [List.append_assoc, hcnt]
                    simp only [List.cons_append, List.nil_append, List.count_cons_self]
                    have := q4 hne2
                    omega

/-- The part of `parseIPv6` after the leading ellipsis accepts address bytes
only, with two colons unless the ellipsis was the leading one. -/
theorem parseIPv6_run_shape (s : GoString) (e : Int) (ip : IP)
    (h : parseIPv6.run s e = some ip) :
    (∀ c ∈ s, isAddrByte c) ∧ (e = -1 → 2 ≤ s.count 58) := by
  unfold parseIPv6.run at h
  split at h
  · simp at h
  · rename_i st hst
    obtain ⟨pre, q1, q2, q3, q4⟩ := parseIPv6_loop_shape _ _ _ hst
    simp only at q1 q3 q4
    split at h
    · simp at h
    · rename_i hlen
      have hnil : st.s = [] := by
        cases hs : st.s with
        | nil => rfl
        | cons a t => rw [hs] at hlen; simp at hlen
      rw [hnil, List.append_nil] at q1
      subst q1
      refine ⟨q2, ?_⟩
      intro he
      split at h
      · split at h
        · simp at h
        · exact q4 (by omega)
      · omega

/-- Every string that the body of `parseIPv6` accepts is made of hexadecimal
digits, colons and dots, and holds two colons. -/
theorem parseIPv6_shape (v : GoString) (ip : IP) (h : parseIPv6.addr v = some ip) :
    (∀ c ∈ v, isAddrByte c) ∧ 2 ≤ v.count 58 := by
  unfold parseIPv6.addr at h
  split at h
  · rename_i hlead
    obtain ⟨h2, h0, h1⟩ := hlead
    have hv : v = 58 :: 58 :: v.drop 2 := by
      match v, h2, h0, h1 with
      | a :: b :: t, _, h0, h1 =>
        simp only [List.getD_cons_zero, List.getD_cons_succ] at h0 h1
        simp [h0, h1]
    split at h
    · rename_i hl
      have hd : v.drop 2 = [] := by
        cases hs : v.drop 2 with
        | nil => rfl
        | cons a t => rw [hs] at hl; simp at hl
      rw [hd] at hv
      rw [hv]
      refine ⟨?_, by simp⟩
      intro c hc
      simp at hc
      exact Or.inr (Or.inl hc)
    · obtain ⟨q1, -⟩ := parseIPv6_run_shape _ _ _ h
      rw [hv]
      refine ⟨?_, by simp⟩
      intro c hc
      simp only [List.mem_cons] at hc
      rcases hc with hc | hc | hc
      · exact Or.inr (Or.inl hc)
      · exact Or.inr (Or.inl hc)
      · exact q1 c hc
  · obtain ⟨q1, q2⟩ := parseIPv6_run_shape _ _ _ h
    exact ⟨q1, q2 rfl⟩

/-- Every string that `ParseIP` accepts is made of hexadecimal digits, colons
and dots; if it holds a colon it holds two. -/
theorem ParseIP_shape (v : GoString) (ip : IP) (h : ParseIP v = some ip) :
    (∀ c ∈ v, isAddrByte c) ∧ (58 ∈ v → 2 ≤ v.count 58) := by
  rcases ParseIP_cases v ip h with h4 | ⟨h6, -⟩
  · obtain ⟨c1, -⟩ := parseIPv4_chars v ip h4
    refine ⟨fun c hc => isDigitOrDot_addr c (c1 c hc), ?_⟩
    intro hm
    exact absurd hm (isDigitOrDot_not v c1 58 (by unfold isDigitOrDot; omega))
  · obtain ⟨c1, c2⟩ := parseIPv6_shape v ip h6
    exact ⟨c1, fun _ => c2⟩

/-- No address byte is a bracket. -/
theorem isAddrByte_not_bracket (x : Nat) (h : isAddrByte x) : x ≠ 91 ∧ x ≠ 93 := by
  unfold isAddrByte isHexDigit at h
  omega

/-- A string in which a byte occurs twice splits around two occurrences. -/
theorem count_two_split (b : Nat) (s : GoString) (h : 2 ≤ s.count b) :
    ∃ pre mid post, s = pre ++ b :: (mid ++ b :: post) := by
  have h1 : b ∈ s := List.count_pos_iff.1 (by omega)
  obtain ⟨pre, t, rfl⟩ := List.append_of_mem h1
  by_cases hp : b ∈ pre
  · obtain ⟨p1, p2, rfl⟩ := List.append_of_mem hp
    exact ⟨p1, p2, t, by simp⟩
  · have h2 : b ∈ t := by
      rw [List.count_append, List.count_cons_self, List.count_eq_zero_of_not_mem hp] at h
      exact List.count_pos_iff.1 (by omega)
    obtain ⟨t1, t2, rfl⟩ := List.append_of_mem h2
    exact ⟨pre, t1, t2, rfl⟩

/-- Validation of a bare IPv6 address: every string with a colon that `ParseIP`
accepts is rejected by `checkIP`, because `SplitHostPort` finds too many
colons. -/
theorem checkIP_bare_ipv6 (v : GoString) (ip : IP) (h : ParseIP v = some ip) (hc : 58 ∈ v) :
    checkIP v = [] := by
  obtain ⟨c1, c2⟩ := ParseIP_shape v ip h
  obtain ⟨pre, mid, post, hv⟩ := count_two_split 58 v (c2 hc)
  have h0 : v.head? ≠ some 91 := by
    intro hh
    have hm : 91 ∈ v := List.mem_of_mem_head? hh
    exact (isAddrByte_not_bracket 91 (c1 91 hm)).1 rfl
  rw [hv] at h0 ⊢
  exact (checkIP_two_colons pre mid post h0).2

/-- The scan of `IndexByte` returns the position of the first occurrence. -/
theorem IndexByte_go_split (c : Nat) (pre post : GoString) (i : Nat) (h : c ∉ pre) :
    IndexByte.go c (pre ++ c :: post) i = ((i + pre.length : Nat) : Int) := by
  induction pre generalizing i with
  | nil => simp [IndexByte.go]
  | cons b t ih =>
    simp only [List.mem_cons, not_or] at h
    rw [List.cons_append]
    simp only [IndexByte.go]
    rw [if_neg (fun e => h.1 e.symm), ih _ h.2]
    simp only [List.length_cons]
    congr 1; omega

/-- The host and port of `[host]:port`, for a host without bracket and a port
without colon or bracket. -/
theorem SplitHostPort_bracket (v p : GoString) (hv : 91 ∉ v ∧ 93 ∉ v)
    (hp : 58 ∉ p ∧ 91 ∉ p ∧ 93 ∉ p) :
    SplitHostPort (91 :: (v ++ 93 :: 58 :: p)) = some (v, p) := by
  have hl : last (91 :: (v ++ 93 :: 58 :: p)) 58 = ((v.length + 2 : Nat) : Int) := by
    have := last_split 58 (91 :: (v ++ [93])) p hp.1
    simpa using this
  have he : IndexByte (91 :: (v ++ 93 :: 58 :: p)) 93 = ((v.length + 1 : Nat) : Int) := by
    have := IndexByte_go_split 93 (91 :: v) (58 :: p) 0 (by simp [hv.2])
    simpa [IndexByte] using this
  have h91 : 91 ∉ v ++ 93 :: 58 :: p := by simp [hv.1, hp.2.1]
  have h93 : 93 ∉ 58 :: p := by simp [hp.2.2]
  unfold SplitHostPort
  simp only [hl, he, List.head?_cons, if_true]
  have e1 : ¬ (((v.length + 2 : Nat) : Int) < 0) := by omega
  have e2 : ¬ (((v.length + 1 : Nat) : Int) < 0) := by omega
  have e3 : ¬ (((v.length + 1 : Nat) : Int) + 1
      = ((91 :: (v ++ 93 :: 58 :: p)).length : Nat)) := by
    simp only [List.length_cons, List.length_append]
    omega
  have e4 : ((v.length + 1 : Nat) : Int) + 1 = ((v.length + 2 : Nat) : Int) := by omega
  simp only [e1, e2, e3, e4, if_false, if_true, Int.toNat_ofNat]
  have d1 : List.drop 1 (91 :: (v ++ 93 :: 58 :: p)) = v ++ 93 :: 58 :: p := rfl
  have d2 : List.drop (v.length + 1 + 1) (91 :: (v ++ 93 :: 58 :: p)) = 58 :: p := by
    simp [List.drop_append_eq_append_drop]
  have d3 : List.drop (v.length + 2 + 1) (91 :: (v ++ 93 :: 58 :: p)) = p := by
    simp [List.drop_append_eq_append_drop]
  have d4 : List.take (v.length + 1 - 1) (v ++ 93 :: 58 :: p) = v := by
    simp
  simp only [SplitHostPort.finish, d1, d2, d3, d4, IndexByte_absent 91 _ h91,
    IndexByte_absent 93 _ h93]
  simp
  refine ⟨by omega, ?_⟩
  have e5 : ((v.length : Int) + 2).toNat = v.length + 2 := by omega
  rw [e5]
  simp [List.drop_append_eq_append_drop]

/-! ## The validation procedure -/

/-- Validation of `[v]:p` for an address `v` that `ParseIP` accepts and a
port `p` without colon or bracket: the canonical string of `v`. -/
theorem checkIP_bracket (v p : GoString) (ip : IP) (h : ParseIP v = some ip)
    (hp : 58 ∉ p ∧ 91 ∉ p ∧ 93 ∉ p) :
    checkIP (91 :: (v ++ 93 :: 58 :: p)) = IP.String ip := by
  obtain ⟨c1, -⟩ := ParseIP_shape v ip h
  have hv : 91 ∉ v ∧ 93 ∉ v :=
    ⟨fun hm => (isAddrByte_not_bracket 91 (c1 91 hm)).1 rfl,
     fun hm => (isAddrByte_not_bracket 93 (c1 93 hm)).2 rfl⟩
  exact checkIP_hostport _ v p ip (SplitHostPort_bracket v p hv hp) h

/-- C12: `checkIP` follows the validation procedure: if `raw` contains `':'`
and the host/port split fails the result is `""`; otherwise, with `host` the
split host (or `raw` itself when `raw` has no `':'`), the result is `""` when
`host` does not parse as an IP address and the canonical string of the parsed
address when it does.  In particular, for every valid address `v` (IPv6, and
IPv4 as well) and every port `p` (text without `':'`, `'['`, `']'`),
`checkIP ("[" ++ v ++ "]:" ++ p)` is the canonical string of `v`. -/
theorem checkIP_procedure (raw : GoString) :
    (58 ∈ raw → SplitHostPort raw = none → checkIP raw = []) ∧
    (∀ host : GoString,
      ((58 ∈ raw ∧ ∃ port, SplitHostPort raw = some (host, port)) ∨
        (58 ∉ raw ∧ host = raw)) →
      (ParseIP host = none → checkIP raw = []) ∧
      (∀ ip, ParseIP host = some ip → checkIP raw = IP.String ip)) ∧
    (∀ (v p : GoString) (ip : IP), ParseIP v = some ip → 58 ∉ p ∧ 91 ∉ p ∧ 93 ∉ p →
      checkIP (str "[" ++ v ++ str "]:" ++ p) = IP.String ip) := by
  have hin : 58 ∈ raw → IndexRune raw 58 ≠ -1 := by
    intro hm
    have := IndexByte_present 58 raw hm
    unfold IndexRune
    omega
  have hout : 58 ∉ raw → IndexRune raw 58 = -1 := IndexByte_absent 58 raw
  refine ⟨?_, ?_, ?_⟩
  · intro hm hs
    unfold checkIP
    simp [hin hm, hs]
  · intro host hh
    rcases hh with ⟨hm, port, hs⟩ | ⟨hm, rfl⟩
    · constructor
      · intro hp
        unfold checkIP
        simp [hin hm, hs, hp]
      · intro ip hp
        unfold checkIP
        simp [hin hm, hs, hp]
    · constructor
      · intro hp
        unfold checkIP
        simp [hout hm, hp]
      · intro ip hp
        unfold checkIP
        simp [hout hm, hp]
  · intro v p ip hv hp
    have e1 : str "[" = [91] := by decide
    have e2 : str "]:" = [93, 58] := by decide
    rw [e1, e2]
    simpa using checkIP_bracket v p ip hv hp

/-- Witness of C12: `[2001:db8::1]:443` validates to `2001:db8::1`, through
the split and through the bracket rule. -/
theorem checkIP_procedure_witness :
    checkIP (str "[2001:db8::1]:443") = str "2001:db8::1" ∧
    checkIP (str "[" ++ str "2001:db8::1" ++ str "]:" ++ str "443") = str "2001:db8::1" :=
  ⟨((checkIP_procedure (str "[2001:db8::1]:443")).2.1 (str "2001:db8::1")
      (Or.inl ⟨by decide, str "443", by decide⟩)).2
      [0x20, 0x01, 0x0d, 0xb8, 0, 0, 0, 0, 0, 0, 0, 0, 0, 0, 0, 1] (by decide),
   (checkIP_procedure []).2.2 (str "2001:db8::1") (str "443")
      [0x20, 0x01, 0x0d, 0xb8, 0, 0, 0, 0, 0, 0, 0, 0, 0, 0, 0, 1] (by decide) (by decide)⟩

/-! ## Validation is not idempotent -/

/-- C14 fails on the code: `checkIP` is idempotent exactly on the results
without colon (the empty string and IPv4 addresses); a result with a colon, an
IPv6 address, is rejected when validated again, for instance
`checkIP "[::1]:80" = "::1"` and `checkIP "::1" = ""`. -/
theorem checkIP_twice :
    (∀ raw : GoString,
      (58 ∉ checkIP raw → checkIP (checkIP raw) = checkIP raw) ∧
      (58 ∈ checkIP raw → checkIP (checkIP raw) = [] ∧ checkIP raw ≠ [])) ∧
    checkIP (str "[::1]:80") = str "::1" ∧
    checkIP (checkIP (str "[::1]:80")) = [] ∧
    checkIP (checkIP (str "[::1]:80")) ≠ checkIP (str "[::1]:80") := by
  refine ⟨?_, by decide, by decide, by decide⟩
  intro raw
  rcases checkIP_canonical raw with h0 | ⟨ip, hp, hs⟩
  · rw [h0]
    exact ⟨fun _ => by decide, fun hm => by simp at hm⟩
  · constructor
    · intro hm
      generalize checkIP raw = s at hp hs hm ⊢
      have hc : IndexRune s 58 = -1 := IndexByte_absent 58 _ hm
      unfold checkIP
      simp [hc, hp, hs]
    · intro hm
      exact ⟨checkIP_bare_ipv6 _ ip hp hm, fun e => by rw [e] at hm; simp at hm⟩

end Realip
